import Mathlib

/-!
Shallow embedding of the route-normalization and link-graph engine of
`astro-post-audit` (crates/astro-post-audit/src). Strings are modelled as
`List Char`; Rust's `str` methods are translated to explicit list operations.
-/

set_option maxHeartbeats 1000000

namespace AstroAudit

/-- Strings from the source are embedded as lists of characters. -/
abbrev Str := List Char

/-- Helper turning a Lean string literal into the embedded representation. -/
def str (s : String) : Str := s.toList

/-- `TrailingSlash` from `src/config/mod.rs`. -/
inductive TrailingSlash where
  | always
  | never
  | ignore
deriving DecidableEq, Repr

/-- `IndexHtml` from `src/config/mod.rs`. -/
inductive IndexHtml where
  | forbid
  | allow
deriving DecidableEq, Repr

/-- `UrlNormalizationConfig` from `src/config/mod.rs`. -/
structure UrlNormalizationConfig where
  trailing_slash : TrailingSlash
  index_html : IndexHtml
deriving DecidableEq, Repr

/-- Rust `str::starts_with` on the embedded strings. -/
def startsWith (s pre : Str) : Bool := decide (pre <+: s)

/-- Rust `str::ends_with` on the embedded strings. -/
def endsWith (s suf : Str) : Bool := decide (suf <:+ s)

/-- Rust `str::contains` with a string pattern. -/
def containsStr (s pat : Str) : Bool := decide (pat <:+: s)

/-- Rust `str::split('/')` (and `split('#')`): split a string at every
occurrence of the separator, keeping empty pieces. -/
def splitChar (sep : Char) : Str → List Str
  | [] => [[]]
  | c :: cs =>
    if c = sep then [] :: splitChar sep cs
    else
      match splitChar sep cs with
      | [] => [[c]]
      | t :: ts => (c :: t) :: ts

/-- `Vec::join("/")` from the source's `collapse_dots`. -/
def joinSlash : List Str → Str
  | [] => []
  | [s] => s
  | s :: ss => s ++ '/' :: joinSlash ss

/-- One step of the segment stack of `collapse_dots`
(`src/normalize/mod.rs`): `.` is dropped, `..` pops, anything else is
pushed.  The stack keeps its top at the front; the caller reverses it. -/
def collapseStack (stack : List Str) (seg : Str) : List Str :=
  if seg = ['.'] then stack
  else if seg = ['.', '.'] then stack.tail
  else seg :: stack

/-- `collapse_dots` from `src/normalize/mod.rs`: collapse `.` and `..`
path segments, restoring a leading `/` that the stack lost. -/
def collapse_dots (path : Str) : Str :=
  let segments := ((splitChar '/' path).foldl collapseStack []).reverse
  let result := joinSlash segments
  if startsWith path ['/'] && !(startsWith result ['/']) then '/' :: result
  else result

/-- Loop of `trim_end_matches`, made structural with a fuel argument.
Each iteration removes at least one character, so `s.length` fuel is
enough for the loop to run to completion. -/
def trimEndAux : Nat → Str → Str → Str
  | 0, s, _ => s
  | fuel + 1, s, pat =>
    if pat ≠ [] ∧ endsWith s pat = true then
      trimEndAux fuel (s.take (s.length - pat.length)) pat
    else s

/-- Rust `str::trim_end_matches` with a string pattern: repeatedly remove
the pattern from the end while it is a suffix. -/
def trim_end_matches (s pat : Str) : Str := trimEndAux s.length s pat

/-- The index-file stripping phase of `normalize_path`
(`src/normalize/mod.rs`, lines 35-43). -/
def strip_index (p : Str) (config : UrlNormalizationConfig) : Str :=
  if config.index_html = IndexHtml.forbid then
    if endsWith p (str "/index.html") then trim_end_matches p (str "index.html")
    else if endsWith p (str "/index.htm") then trim_end_matches p (str "index.htm")
    else if p = str "index.html" ∨ p = str "/index.html"
          ∨ p = str "index.htm" ∨ p = str "/index.htm" then str "/"
    else p
  else p

/-- The trailing-slash phase of `normalize_path`
(`src/normalize/mod.rs`, lines 46-60).  `trim_end_matches` with the
single-character pattern `"/"` is Rust's `trim_end_matches('/')`. -/
def apply_trailing (p : Str) (config : UrlNormalizationConfig) : Str :=
  if p ≠ str "/" then
    match config.trailing_slash with
    | TrailingSlash.always => if !(endsWith p ['/']) then p ++ ['/'] else p
    | TrailingSlash.never =>
        if endsWith p ['/'] && decide (p.length > 1) then trim_end_matches p ['/'] else p
    | TrailingSlash.ignore => p
  else p

/-- `normalize_path` from `src/normalize/mod.rs`: collapse dot segments,
strip `index.html`/`index.htm`, then apply the trailing-slash policy. -/
def normalize_path (path : Str) (config : UrlNormalizationConfig) : Str :=
  apply_trailing (strip_index (collapse_dots path) config) config

/-- `file_path_to_route` from `src/normalize/mod.rs`. -/
def file_path_to_route (rel_path : Str) (config : UrlNormalizationConfig) : Str :=
  let route := '/' :: rel_path.map (fun c => if c = '\\' then '/' else c)
  let route :=
    if endsWith route (str "/index.html") then trim_end_matches route (str "index.html")
    else if endsWith route (str "/index.htm") then trim_end_matches route (str "index.htm")
    else if endsWith route (str ".html") then trim_end_matches route (str ".html")
    else if endsWith route (str ".htm") then trim_end_matches route (str ".htm")
    else route
  let route := if route = [] then str "/" else route
  normalize_path route config

/-! ## A simplified model of `url::Url`

The url crate is an external dependency; the audit only feeds it
hierarchical `scheme://host[:port]/path` URLs.  The model below parses
exactly that shape.  Simplifications: no userinfo, no percent-decoding or
case folding, and the query/fragment stay inside `path` (the call sites in
the source strip `?`/`#` before parsing where it matters).  Parsing fails
on an empty scheme or an empty host, as `Url::parse` does. -/

/-- A parsed absolute URL. -/
structure ParsedUrl where
  scheme : Str
  host : Str
  port : Option Nat
  path : Str
deriving DecidableEq, Repr

/-- Split a string at the first occurrence of a (nonempty) pattern,
returning the parts before and after it. -/
def splitOnFirst (s pat : Str) : Option (Str × Str) :=
  match s with
  | [] => none
  | c :: cs =>
    if startsWith (c :: cs) pat then some ([], (c :: cs).drop pat.length)
    else
      match splitOnFirst cs pat with
      | some (pre, post) => some (c :: pre, post)
      | none => none

/-- Split a string at the first occurrence of a character; the second
component is `none` when the character does not occur. -/
def splitAtFirstChar (s : Str) (c : Char) : Str × Option Str :=
  match s with
  | [] => ([], none)
  | x :: xs =>
    if x = c then ([], some xs)
    else
      let (pre, post) := splitAtFirstChar xs c
      (x :: pre, post)

/-- Parse a decimal port number. -/
def parseNatDigits (s : Str) : Option Nat :=
  if s ≠ [] ∧ s.all Char.isDigit then
    some (s.foldl (fun n c => n * 10 + (c.toNat - 48)) 0)
  else none

/-- Model of `url::Url::parse` for `scheme://host[:port]path` URLs. -/
def parse_url (s : Str) : Option ParsedUrl :=
  match splitOnFirst s (str "://") with
  | none => none
  | some (scheme, rest) =>
    if scheme = [] then none
    else
      let (authority, pathPart) := splitAtFirstChar rest '/'
      let path := match pathPart with
                  | none => str "/"
                  | some p => '/' :: p
      let (host, portPart) := splitAtFirstChar authority ':'
      if host = [] then none
      else
        match portPart with
        | none => some ⟨scheme, host, none, path⟩
        | some ps =>
          match parseNatDigits ps with
          | some n => some ⟨scheme, host, some n, path⟩
          | none => none

/-- Known default ports (`url::Url::port_or_known_default`). -/
def default_port (scheme : Str) : Option Nat :=
  if scheme = str "http" then some 80
  else if scheme = str "https" then some 443
  else none

/-- Model of `url::Url::origin`: the (scheme, host, effective port)
triple compared by `is_internal` for absolute hrefs. -/
def origin (u : ParsedUrl) : Str × Str × Option Nat :=
  (u.scheme, u.host,
    match u.port with
    | some p => some p
    | none => default_port u.scheme)

/-- Decimal rendering of a number, for `Url::to_string`. -/
def natToStr (n : Nat) : Str := (toString n).toList

/-- Model of `url::Url::to_string` on the simplified URL shape. -/
def urlToString (u : ParsedUrl) : Str :=
  u.scheme ++ str "://" ++ u.host ++
    (match u.port with
     | some p => ':' :: natToStr p
     | none => []) ++ u.path

/-- Model of `url::Url::set_path`. -/
def withPath (u : ParsedUrl) (p : Str) : ParsedUrl := { u with path := p }

/-! ## The link resolver (`src/normalize/mod.rs`) -/

/-- `strip_fragment_and_query`: the part before the first `#`, then the
part of that before the first `?` (Rust `split('#').next()` /
`split('?').next()`). -/
def strip_fragment_and_query (href : Str) : Str :=
  (href.takeWhile (· ≠ '#')).takeWhile (· ≠ '?')

/-- `has_query_params`: a `?` occurring before any `#`. -/
def has_query_params (href : Str) : Bool :=
  (href.takeWhile (· ≠ '#')).contains '?'

/-- `is_internal` from `src/normalize/mod.rs`: relative hrefs are always
internal; protocol-relative hrefs borrow the base's scheme and compare
hosts; absolute hrefs compare origins; no base URL means not internal. -/
def is_internal (href : Str) (base_url : Option Str) : Bool :=
  if !(containsStr href (str "://")) && !(startsWith href (str "//")) then true
  else if startsWith href (str "//") then
    match base_url with
    | some base =>
      match parse_url base with
      | some base_parsed =>
        match parse_url (base_parsed.scheme ++ ':' :: href) with
        | some href_parsed => href_parsed.host = base_parsed.host
        | none => false
      | none => false
    | none => false
  else
    match base_url with
    | some base =>
      match parse_url base, parse_url href with
      | some base_parsed, some href_parsed => origin href_parsed = origin base_parsed
      | _, _ => false
    | none => false

/-- The page directory used by `resolve_href` for relative hrefs: the
route up to and including its final `/` (Rust's `rfind('/')` plus slice),
or `/` when the route has no slash at all. -/
def page_directory (page_route : Str) : Str :=
  if endsWith page_route ['/'] then page_route
  else
    let d := (page_route.reverse.dropWhile (· ≠ '/')).reverse
    if d = [] then str "/" else d

/-- `resolve_href` from `src/normalize/mod.rs`. -/
def resolve_href (href page_route : Str) (base_url : Option Str) : Option Str :=
  let clean := strip_fragment_and_query href
  if clean = [] then some page_route
  else if containsStr clean (str "://") || startsWith clean (str "//") then
    match parse_url clean with
    | some parsed => some parsed.path
    | none =>
      match base_url with
      | some base =>
        match parse_url base with
        | some base_parsed =>
          match parse_url (base_parsed.scheme ++ ':' :: clean) with
          | some parsed => some parsed.path
          | none => none
        | none => none
      | none => none
  else if startsWith clean ['/'] then some (collapse_dots clean)
  else some (collapse_dots (page_directory page_route ++ clean))

/-! ## Findings, configuration, and the site index
(`src/report/mod.rs`, `src/config/mod.rs`, `src/discovery/mod.rs`)

HTML parsing (the `scraper` crate) is an external collaborator; a page is
modelled by the data the checks extract from its document: the `href`s of
its `a[href]` elements in document order, the `id` attributes present, and
its `link[rel=alternate][hreflang]` pairs.  The filesystem under `dist/`
is modelled by the list of file paths that exist there. -/

/-- Finding severity (`src/report/mod.rs`). -/
inductive Level where
  | warning
  | error
deriving DecidableEq, Repr

/-- A reported finding (`src/report/mod.rs`). -/
structure Finding where
  level : Level
  rule_id : Str
  file : Str
  selector : Str
  message : Str
  help : Str
deriving DecidableEq, Repr

/-- `LinksConfig` from `src/config/mod.rs`. -/
structure LinksConfig where
  check_internal : Bool
  fail_on_broken : Bool
  forbid_query_params_internal : Bool
  check_assets : Bool
  check_fragments : Bool
  detect_orphan_pages : Bool
  check_mixed_content : Bool
deriving DecidableEq, Repr

/-- `HreflangConfig` from `src/config/mod.rs`. -/
structure HreflangConfig where
  check_hreflang : Bool
  require_x_default : Bool
  require_self_reference : Bool
  require_reciprocal : Bool
deriving DecidableEq, Repr

/-- `SitemapConfig` from `src/config/mod.rs`. -/
structure SitemapConfig where
  require : Bool
  canonical_must_be_in_sitemap : Bool
  forbid_noncanonical_in_sitemap : Bool
  entries_must_exist_in_dist : Bool
deriving DecidableEq, Repr

/-- The slice of `Config` the graph checks read. -/
structure Config where
  url_normalization : UrlNormalizationConfig
  links : LinksConfig
  hreflang : HreflangConfig
  sitemap : SitemapConfig
deriving DecidableEq, Repr

/-- `PageInfo` from `src/discovery/mod.rs`, with the parsed document
abstracted to the element data the checks query. -/
structure PageInfo where
  rel_path : Str
  route : Str
  absolute_url : Option Str
  /-- `href` attributes of `a[href]` elements, in document order. -/
  anchors : List Str
  /-- `id` attributes present on the page. -/
  ids : List Str
  /-- `(hreflang, href)` pairs of `link[rel=alternate][hreflang]` elements. -/
  hreflangs : List (Str × Str)
  canonical : Option Str
  noindex : Bool
deriving DecidableEq, Repr

/-- Insert into an association map, overwriting an existing key:
the semantics of `HashMap::insert`. -/
def alistInsert {β : Type} (m : List (Str × β)) (k : Str) (v : β) : List (Str × β) :=
  match m with
  | [] => [(k, v)]
  | (k', v') :: rest => if k' = k then (k, v) :: rest else (k', v') :: alistInsert rest k v

/-- Lookup in an association map (`HashMap::get`). -/
def alistLookup {β : Type} (m : List (Str × β)) (k : Str) : Option β :=
  match m with
  | [] => none
  | (k', v) :: rest => if k' = k then some v else alistLookup rest k

/-- The `for (i, page) in pages.iter().enumerate()` loop of
`SiteIndex::build`, carrying the running index. -/
def buildRouteIndexAux (m : List (Str × Nat)) (i : Nat) : List PageInfo → List (Str × Nat)
  | [] => m
  | p :: rest => buildRouteIndexAux (alistInsert m p.route i) (i + 1) rest

/-- The route-index reduction of `SiteIndex::build`
(`src/discovery/mod.rs`, lines 157-161): insert each page keyed by its
route, in discovery order, later insertions overwriting earlier ones. -/
def buildRouteIndex (pages : List PageInfo) : List (Str × Nat) :=
  buildRouteIndexAux [] 0 pages

/-- `SiteIndex` from `src/discovery/mod.rs`.  `dist_files` models the
set of file paths existing under `dist/`; `sitemap_file_exists` models
the existence check on `dist/sitemap.xml`. -/
structure SiteIndex where
  pages : List PageInfo
  route_to_index : List (Str × Nat)
  sitemap_urls : List Str
  dist_files : List Str
  sitemap_file_exists : Bool
  base_url : Option Str
deriving DecidableEq, Repr

/-- Assemble a `SiteIndex` from extracted pages, as `SiteIndex::build`
does after the parallel extraction step. -/
def SiteIndex.build (pages : List PageInfo) (sitemap_urls : List Str)
    (dist_files : List Str) (sitemap_file_exists : Bool) (base_url : Option Str) :
    SiteIndex :=
  ⟨pages, buildRouteIndex pages, sitemap_urls, dist_files, sitemap_file_exists, base_url⟩

/-- `SiteIndex::route_exists`. -/
def SiteIndex.route_exists (index : SiteIndex) (route : Str) : Bool :=
  (alistLookup index.route_to_index route).isSome

/-- `SiteIndex::file_exists`. -/
def SiteIndex.file_exists (index : SiteIndex) (rel_path : Str) : Bool :=
  index.dist_files.contains rel_path

/-! ## The internal-links check (`src/checks/links.rs`) -/

/-- The `format!("a[href='{…}']", href)` locator used by the link
findings. -/
def anchorSelector (href : Str) : Str := str "a[href=\x27" ++ href ++ str "\x27]"

/-- Rust `str::strip_prefix('#')`. -/
def stripHashChar (href : Str) : Option Str :=
  match href with
  | c :: rest => if c = '#' then some rest else none
  | [] => none

/-- The same-page fragment check of `check_internal_links`
(`src/checks/links.rs`, lines 67-86): the findings pushed for a
fragment-only href. -/
def sameFragFindings (config : Config) (page : PageInfo) (href fragment : Str) : List Finding :=
  if config.links.check_fragments && fragment ≠ [] && !(page.ids.contains fragment) then
    [⟨Level.warning, str "links/broken-fragment", page.rel_path, anchorSelector href,
      str "Fragment target \x27" ++ fragment ++ str "\x27 not found on this page",
      str "Add an element with the matching id, or fix the fragment"⟩]
  else []

/-- The query-parameter check (`src/checks/links.rs`, lines 89-101). -/
def queryParamFindings (config : Config) (page : PageInfo) (href : Str) : List Finding :=
  if config.links.forbid_query_params_internal && has_query_params href then
    [⟨Level.error, str "links/query-params", page.rel_path, anchorSelector href,
      str "Internal link contains query parameters: \x27" ++ href ++ str "\x27",
      str "Remove query parameters from internal links to avoid duplicate content signals"⟩]
  else []

/-- The mixed-content check (`src/checks/links.rs`, lines 104-113). -/
def mixedContentFindings (config : Config) (page : PageInfo) (href : Str) : List Finding :=
  if config.links.check_mixed_content && startsWith href (str "http://") then
    [⟨Level.warning, str "links/mixed-content", page.rel_path, anchorSelector href,
      str "Internal link uses HTTP instead of HTTPS: \x27" ++ href ++ str "\x27",
      str "Use HTTPS for all internal links"⟩]
  else []

/-- The broken-link check on a resolved href
(`src/checks/links.rs`, lines 122-144). -/
def brokenFindings (index : SiteIndex) (config : Config) (page : PageInfo)
    (href resolved : Str) : List Finding :=
  if !(index.route_exists (normalize_path resolved config.url_normalization)) then
    if !(index.file_exists (resolved.dropWhile (· = '/'))) then
      [⟨(if config.links.fail_on_broken then Level.error else Level.warning),
        str "links/broken", page.rel_path, anchorSelector href,
        str "Broken internal link \x27" ++ href ++ str "\x27 -> \x27"
          ++ normalize_path resolved config.url_normalization
          ++ str "\x27 (not found in dist)",
        str "Fix the href to point to an existing page"⟩]
    else []
  else []

/-- The cross-page fragment check on a resolved href
(`src/checks/links.rs`, lines 146-174). -/
def crossFragFindings (index : SiteIndex) (config : Config) (page : PageInfo)
    (href resolved : Str) : List Finding :=
  if config.links.check_fragments then
    match (splitChar '#' href).get? 1 with
    | some fragment =>
      if fragment ≠ [] then
        match alistLookup index.route_to_index (normalize_path resolved config.url_normalization) with
        | some target_idx =>
          match index.pages.get? target_idx with
          | some target_page =>
            if !(target_page.ids.contains fragment) then
              [⟨Level.warning, str "links/broken-fragment", page.rel_path,
                anchorSelector href,
                str "Fragment \x27" ++ fragment ++ str "\x27 not found on target page \x27"
                  ++ normalize_path resolved config.url_normalization ++ str "\x27",
                str "Fix the fragment or add the target id"⟩]
            else []
          | none => []
        | none => []
      else []
    | none => []
  else []

/-- The body of the `for element in html.select(&sel)` loop of
`check_internal_links` (`src/checks/links.rs`, lines 47-176), for one
`href`: the findings it pushes, in push order. -/
def processAnchor (index : SiteIndex) (config : Config) (page : PageInfo)
    (href : Str) : List Finding :=
  if !(is_internal href index.base_url) then []
  else if startsWith href (str "mailto:") || startsWith href (str "tel:")
      || startsWith href (str "javascript:") then []
  else
    match stripHashChar href with
    | some fragment => sameFragFindings config page href fragment
    | none =>
      queryParamFindings config page href ++ mixedContentFindings config page href ++
        match resolve_href href page.route index.base_url with
        | some resolved =>
          brokenFindings index config page href resolved
            ++ crossFragFindings index config page href resolved
        | none => []

/-- `check_internal_links` (`src/checks/links.rs`, lines 24-181): every
page's anchors, in order, each contributing its pushed findings. -/
def check_internal_links (index : SiteIndex) (config : Config) : List Finding :=
  index.pages.flatMap fun page => page.anchors.flatMap (processAnchor index config page)

/-- Pass 1 of `check_orphan_pages` (`src/checks/links.rs`, lines
185-212): the resolved, normalized internal link targets of one page.
Rust collects a `HashSet`; a list with the same membership is used here,
and only membership in it is ever consumed. -/
def collect_targets (index : SiteIndex) (config : Config) (page : PageInfo) : List Str :=
  page.anchors.filterMap fun href =>
    if is_internal href index.base_url && !(startsWith href ['#'])
        && !(startsWith href (str "mailto:")) && !(startsWith href (str "tel:")) then
      (resolve_href href page.route index.base_url).map fun resolved =>
        normalize_path resolved config.url_normalization
    else none

/-- `check_orphan_pages` (`src/checks/links.rs`, lines 183-237): union
all per-page target sets, seed the union with the root route `/`, then
flag every page whose route is absent from the union. -/
def check_orphan_pages (index : SiteIndex) (config : Config) : List Finding :=
  let linked_routes := str "/" :: index.pages.flatMap (collect_targets index config)
  (index.pages.filter fun page => !(linked_routes.contains page.route)).map fun page =>
    ⟨Level.warning, str "links/orphan-page", page.rel_path, [],
      str "Orphan page \x27" ++ page.route ++ str "\x27 is not linked from any other page",
      str "Add internal links to this page or remove it if unneeded"⟩

/-- `links::check_all` (`src/checks/links.rs`, lines 10-22). -/
def links_check_all (index : SiteIndex) (config : Config) : List Finding :=
  (if config.links.check_internal then check_internal_links index config else []) ++
  (if config.links.detect_orphan_pages then check_orphan_pages index config else [])

/-! ## The hreflang check (`src/checks/hreflang.rs`)

Rust accumulates `all_hreflangs` in a `HashMap` and the reciprocity pass
iterates it in unspecified order; here an insertion-ordered association
list is used, which fixes one iteration order but the same key/value
contents. -/

/-- Phase 1 of `hreflang::check_all` (lines 20-72) for one page: the
per-page findings; a page that declares no hreflang pairs is skipped
(`continue`). -/
def hreflangPageFindings (config : Config) (page : PageInfo) : List Finding :=
  if page.hreflangs = [] then []
  else
    (if config.hreflang.require_x_default
        && !(page.hreflangs.any fun e => e.1 == str "x-default") then
      [⟨Level.warning, str "hreflang/no-x-default", page.rel_path,
        str "link[rel=\x27alternate\x27][hreflang]",
        str "Hreflang tags present but no x-default",
        str "Add <link rel=\"alternate\" hreflang=\"x-default\" href=\"...\">"⟩]
    else [])
    ++ (if config.hreflang.require_self_reference
        && !(page.hreflangs.any fun e => page.absolute_url == some e.2) then
      [⟨Level.warning, str "hreflang/no-self-reference", page.rel_path,
        str "link[rel=\x27alternate\x27][hreflang]",
        str "Hreflang tags don\x27t include a self-reference",
        str "Include the current page URL in hreflang annotations"⟩]
    else [])

/-- The accumulated `all_hreflangs` map after phase 1: each page with a
nonempty pair list keyed by its route, in page order. -/
def allHreflangs (pages : List PageInfo) : List (Str × List (Str × Str)) :=
  pages.foldl
    (fun m page =>
      if page.hreflangs = [] then m else alistInsert m page.route page.hreflangs)
    []

/-- The reciprocity pass of `hreflang::check_all` (lines 75-123) for one
`(lang, href)` pair of one source route. -/
def reciprocalPair (index : SiteIndex) (all : List (Str × List (Str × Str)))
    (source_route : Str) (lang href : Str) : List Finding :=
  if lang = str "x-default" then []
  else
    match index.pages.find? (fun p => p.absolute_url == some href) with
    | some target =>
      match alistLookup all target.route with
      | some target_entries =>
        if !(match (index.pages.find? (fun p => p.route == source_route)).bind
              (fun p => p.absolute_url) with
            | some su => target_entries.any fun e => e.2 == su
            | none => false) then
          [⟨Level.warning, str "hreflang/no-reciprocal",
            (match index.pages.find? (fun p => p.route == source_route) with
             | some p => p.rel_path
             | none => str "(unknown)"),
            str "link[hreflang=\x27" ++ lang ++ str "\x27][href=\x27" ++ href ++ str "\x27]",
            str "Hreflang target \x27" ++ href ++ str "\x27 (lang=\x27" ++ lang
              ++ str "\x27) doesn\x27t link back",
            str "Add reciprocal hreflang link on the target page"⟩]
        else []
      | none => []
    | none => []

/-- `hreflang::check_all` (`src/checks/hreflang.rs`). -/
def hreflang_check_all (index : SiteIndex) (config : Config) : List Finding :=
  if !config.hreflang.check_hreflang then []
  else
    index.pages.flatMap (hreflangPageFindings config) ++
      (if config.hreflang.require_reciprocal then
        (allHreflangs index.pages).flatMap fun se =>
          se.2.flatMap fun e =>
            reciprocalPair index (allHreflangs index.pages) se.1 e.1 e.2
      else [])

/-! ## The sitemap parser and check
(`src/discovery/mod.rs` `parse_sitemap`, `src/checks/sitemap.rs`)

The quick-xml reader is an external collaborator; its output is modelled
as the stream of events the `parse_sitemap` loop matches on: `Start`/
`Text`/`End` events (with text already unescaped), other event kinds the
loop ignores, the end of file, and a read error for malformed XML. -/

/-- The quick-xml events distinguished by `parse_sitemap`. -/
inductive XmlEvent where
  | start (name : Str)
  | text (s : Str)
  | stop (name : Str)
  | eof
  | err
  | other
deriving DecidableEq, Repr

/-- Rust `str::trim`. -/
def trimStr (s : Str) : Str :=
  ((s.dropWhile Char.isWhitespace).reverse.dropWhile Char.isWhitespace).reverse

/-- The event loop of `parse_sitemap` (`src/discovery/mod.rs`, lines
222-240), carrying the `in_loc` flag; both `Eof` and a read error break
out of the loop, returning what was collected so far. -/
def parseSitemapLoop : List XmlEvent → Bool → List Str
  | [], _ => []
  | e :: rest, in_loc =>
    match e with
    | XmlEvent.start name =>
      if name = str "loc" then parseSitemapLoop rest true else parseSitemapLoop rest in_loc
    | XmlEvent.text s =>
      if in_loc then trimStr s :: parseSitemapLoop rest false else parseSitemapLoop rest in_loc
    | XmlEvent.stop name =>
      if name = str "loc" then parseSitemapLoop rest false else parseSitemapLoop rest in_loc
    | XmlEvent.eof => []
    | XmlEvent.err => []
    | XmlEvent.other => parseSitemapLoop rest in_loc

/-- `parse_sitemap` (`src/discovery/mod.rs`, lines 212-243): never an
error once the file was read; just the collected `<loc>` texts. -/
def parse_sitemap (events : List XmlEvent) : List Str :=
  parseSitemapLoop events false

/-- Normalization of one sitemap/canonical URL in `sitemap::check_all`:
parse, normalize the path, write it back, re-render. -/
def normalizeUrlString (u : Str) (config : Config) : Option Str :=
  (parse_url u).map fun parsed =>
    urlToString (withPath parsed (normalize_path parsed.path config.url_normalization))

/-- `sitemap::check_all` (`src/checks/sitemap.rs`). -/
def sitemap_check_all (index : SiteIndex) (config : Config) : List Finding :=
  if !index.sitemap_file_exists then
    if config.sitemap.require then
      [⟨Level.error, str "sitemap/missing", str "sitemap.xml", [],
        str "sitemap.xml not found in dist directory",
        str "Configure Astro to generate a sitemap (e.g., @astrojs/sitemap)"⟩]
    else []
  else if index.sitemap_urls = [] then []
  else
    let canonicalFindings :=
      if config.sitemap.canonical_must_be_in_sitemap then
        let normalized_sitemap := index.sitemap_urls.filterMap fun u => normalizeUrlString u config
        index.pages.flatMap fun page =>
          if page.noindex then []
          else
            match page.canonical with
            | some canonical =>
              let norm_canonical :=
                match normalizeUrlString canonical config with
                | some n => n
                | none => canonical
              if !(normalized_sitemap.contains norm_canonical) then
                [⟨Level.warning, str "sitemap/canonical-missing", page.rel_path,
                  str "link[rel=\x27canonical\x27][href=\x27" ++ canonical ++ str "\x27]",
                  str "Canonical URL \x27" ++ canonical ++ str "\x27 is not listed in sitemap.xml",
                  str "Add this URL to your sitemap or check the canonical"⟩]
              else []
            | none => []
      else []
    let staleFindings :=
      if config.sitemap.entries_must_exist_in_dist then
        index.sitemap_urls.flatMap fun url_str =>
          match parse_url url_str with
          | some parsed =>
            let route := normalize_path parsed.path config.url_normalization
            if !(index.route_exists route) then
              [⟨Level.warning, str "sitemap/entry-not-in-dist", str "sitemap.xml",
                str "<loc>" ++ url_str ++ str "</loc>",
                str "Sitemap entry \x27" ++ url_str ++ str "\x27 (route \x27" ++ route
                  ++ str "\x27) not found in dist",
                str "Remove stale entries from sitemap or add the missing page"⟩]
            else []
          | none => []
      else []
    let noncanonicalFindings :=
      if config.sitemap.forbid_noncanonical_in_sitemap then
        index.sitemap_urls.flatMap fun url_str =>
          match parse_url url_str with
          | some parsed =>
            let route := normalize_path parsed.path config.url_normalization
            match alistLookup index.route_to_index route with
            | some idx =>
              match index.pages.get? idx with
              | some page =>
                match page.canonical with
                | some canonical =>
                  if canonical ≠ url_str then
                    [⟨Level.warning, str "sitemap/non-canonical-entry", str "sitemap.xml",
                      str "<loc>" ++ url_str ++ str "</loc>",
                      str "Sitemap contains \x27" ++ url_str ++ str "\x27 but page canonical is \x27"
                        ++ canonical ++ str "\x27",
                      str "Use the canonical URL in the sitemap"⟩]
                  else []
                | none => []
              | none => []
            | none => []
          | none => []
      else []
    canonicalFindings ++ staleFindings ++ noncanonicalFindings

/-- "No dot segments": the property of paths that `collapse_dots` leaves
unchanged and that its results enjoy. -/
def noDotSegs (s : Str) : Prop :=
  ∀ t ∈ splitChar '/' s, t ≠ ['.'] ∧ t ≠ ['.', '.']

/-- Count of findings with a given rule id and selector. -/
def countRuleSel (r sel : Str) (l : List Finding) : Nat :=
  l.countP fun f => f.rule_id == r && f.selector == sel

/-- Count of findings with a given rule id and file. -/
def countRuleFile (r file : Str) (l : List Finding) : Nat :=
  l.countP fun f => f.rule_id == r && f.file == file

/-! # Proof development -/

/-! ## Basic string-operation lemmas -/

lemma endsWith_iff {s pat : Str} : endsWith s pat = true ↔ pat <:+ s := by
  simp [endsWith]

lemma startsWith_iff {s pre : Str} : startsWith s pre = true ↔ pre <+: s := by
  simp [startsWith]

lemma headI_mem_of_ne_nil {α : Type} [Inhabited α] {l : List α} (h : l ≠ []) :
    l.headI ∈ l := by
  cases l with
  | nil => exact absurd rfl h
  | cons a as => simp

lemma splitChar_ne_nil (sep : Char) (s : Str) : splitChar sep s ≠ [] := by
  cases s with
  | nil => simp [splitChar]
  | cons c cs =>
    simp only [splitChar]
    split
    · simp
    · split <;> simp

lemma splitChar_cons_sep (sep : Char) (s : Str) :
    splitChar sep (sep :: s) = [] :: splitChar sep s := by
  simp [splitChar]

lemma splitChar_cons_of_ne (sep c : Char) (s : Str) (h : ¬ c = sep) :
    splitChar sep (c :: s) =
      (c :: (splitChar sep s).headI) :: (splitChar sep s).tail := by
  obtain ⟨t, ts, hts⟩ : ∃ t ts, splitChar sep s = t :: ts := by
    cases hh : splitChar sep s with
    | nil => exact absurd hh (splitChar_ne_nil sep s)
    | cons t ts => exact ⟨t, ts, rfl⟩
  simp only [splitChar, if_neg h, hts, List.headI, List.tail]

lemma splitChar_append (sep : Char) (a b : Str) :
    splitChar sep (a ++ sep :: b) = splitChar sep a ++ splitChar sep b := by
  induction a with
  | nil => simp [splitChar_cons_sep, splitChar]
  | cons c cs ih =>
    by_cases h : c = sep
    · subst h
      rw [List.cons_append, splitChar_cons_sep, splitChar_cons_sep, ih, List.cons_append]
    · rw [List.cons_append, splitChar_cons_of_ne sep c _ h, splitChar_cons_of_ne sep c cs h, ih]
      obtain ⟨t, ts, hts⟩ : ∃ t ts, splitChar sep cs = t :: ts := by
        cases hh : splitChar sep cs with
        | nil => exact absurd hh (splitChar_ne_nil sep cs)
        | cons t ts => exact ⟨t, ts, rfl⟩
      rw [hts]
      simp [List.headI]

lemma not_sep_of_mem_splitChar {sep : Char} {s : Str} :
    ∀ t ∈ splitChar sep s, sep ∉ t := by
  induction s with
  | nil =>
    intro t ht
    simp [splitChar] at ht
    simp [ht]
  | cons c cs ih =>
    intro t ht
    by_cases h : c = sep
    · subst h
      rw [splitChar_cons_sep] at ht
      rcases List.mem_cons.mp ht with h1 | h1
      · simp [h1]
      · exact ih t h1
    · rw [splitChar_cons_of_ne sep c cs h] at ht
      rcases List.mem_cons.mp ht with h1 | h1
      · subst h1
        intro hmem
        rcases List.mem_cons.mp hmem with h2 | h2
        · exact h h2.symm
        · exact ih _ (headI_mem_of_ne_nil (splitChar_ne_nil sep cs)) h2
      · exact ih t (List.mem_of_mem_tail h1)

lemma splitChar_of_not_mem {sep : Char} {s : Str} (h : sep ∉ s) :
    splitChar sep s = [s] := by
  induction s with
  | nil => simp [splitChar]
  | cons c cs ih =>
    have hc : ¬ c = sep := fun hh => h (by simp [hh])
    rw [splitChar_cons_of_ne sep c cs hc, ih (fun hh => h (List.mem_cons_of_mem c hh))]
    simp [List.headI]

lemma joinSlash_cons (t : Str) (l : List Str) (h : l ≠ []) :
    joinSlash (t :: l) = t ++ '/' :: joinSlash l := by
  cases l with
  | nil => exact absurd rfl h
  | cons u us => rfl

lemma joinSlash_splitChar (s : Str) : joinSlash (splitChar '/' s) = s := by
  induction s with
  | nil => simp [splitChar, joinSlash]
  | cons c cs ih =>
    by_cases h : c = '/'
    · subst h
      rw [splitChar_cons_sep, joinSlash_cons _ _ (splitChar_ne_nil _ _), ih]
      rfl
    · rw [splitChar_cons_of_ne '/' c cs h]
      obtain ⟨t, ts, hts⟩ : ∃ t ts, splitChar '/' cs = t :: ts := by
        cases hh : splitChar '/' cs with
        | nil => exact absurd hh (splitChar_ne_nil '/' cs)
        | cons t ts => exact ⟨t, ts, rfl⟩
      rw [hts] at ih ⊢
      cases ts with
      | nil =>
        simp only [List.headI, List.tail, joinSlash] at ih ⊢
        rw [ih]
      | cons u us =>
        simp only [List.headI, List.tail] at ih ⊢
        rw [joinSlash_cons _ _ (List.cons_ne_nil u us)] at ih
        rw [joinSlash_cons _ _ (List.cons_ne_nil u us), ← ih]
        rfl

lemma splitChar_joinSlash (l : List Str) (hne : l ≠ [])
    (h : ∀ t ∈ l, '/' ∉ t) : splitChar '/' (joinSlash l) = l := by
  induction l with
  | nil => exact absurd rfl hne
  | cons t ts ih =>
    cases ts with
    | nil =>
      show splitChar '/' (joinSlash [t]) = [t]
      simp only [joinSlash]
      exact splitChar_of_not_mem (h t (by simp))
    | cons u us =>
      rw [joinSlash_cons _ _ (List.cons_ne_nil u us), splitChar_append,
        splitChar_of_not_mem (h t (by simp)),
        ih (List.cons_ne_nil u us) (fun x hx => h x (List.mem_cons_of_mem t hx))]
      rfl

/-! ## `collapse_dots` lemmas -/

lemma foldl_collapseStack_mem :
    ∀ (l : List Str) (st : List Str) (x : Str), x ∈ l.foldl collapseStack st →
      x ∈ st ∨ (x ∈ l ∧ x ≠ ['.'] ∧ x ≠ ['.', '.']) := by
  intro l
  induction l with
  | nil => intro st x hx; exact Or.inl hx
  | cons a l ih =>
    intro st x hx
    rw [List.foldl_cons] at hx
    rcases ih (collapseStack st a) x hx with h1 | h1
    · unfold collapseStack at h1
      split at h1
      · exact Or.inl h1
      · split at h1
        · exact Or.inl (List.mem_of_mem_tail h1)
        · rcases List.mem_cons.mp h1 with h2 | h2
          · subst h2
            exact Or.inr ⟨List.mem_cons_self x l, by assumption, by assumption⟩
          · exact Or.inl h2
    · exact Or.inr ⟨List.mem_cons_of_mem a h1.1, h1.2⟩

lemma foldl_collapseStack_of_noDot :
    ∀ (l : List Str), (∀ x ∈ l, x ≠ ['.'] ∧ x ≠ ['.', '.']) →
      ∀ st, l.foldl collapseStack st = l.reverse ++ st := by
  intro l
  induction l with
  | nil => intro _ st; simp
  | cons a l ih =>
    intro h st
    rw [List.foldl_cons]
    have ha := h a (List.mem_cons_self a l)
    have hstep : collapseStack st a = a :: st := by
      unfold collapseStack
      rw [if_neg ha.1, if_neg ha.2]
    rw [hstep, ih (fun x hx => h x (List.mem_cons_of_mem a hx)) (a :: st)]
    simp

lemma noDotSegs_nil : noDotSegs [] := by
  intro t ht
  simp [splitChar] at ht
  simp [ht]

lemma noDotSegs_cons_slash {r : Str} (h : noDotSegs r) : noDotSegs ('/' :: r) := by
  intro t ht
  rw [splitChar_cons_sep] at ht
  rcases List.mem_cons.mp ht with h1 | h1
  · simp [h1]
  · exact h t h1

lemma collapse_dots_fixed {p : Str} (h : noDotSegs p) : collapse_dots p = p := by
  simp only [collapse_dots]
  rw [foldl_collapseStack_of_noDot _ h, List.append_nil, List.reverse_reverse,
    joinSlash_splitChar]
  simp [Bool.and_not_self]

lemma collapse_dots_noDot (p : Str) : noDotSegs (collapse_dots p) := by
  simp only [collapse_dots]
  have hmem : ∀ x ∈ ((splitChar '/' p).foldl collapseStack []).reverse,
      x ≠ ['.'] ∧ x ≠ ['.', '.'] ∧ '/' ∉ x := by
    intro x hx
    rw [List.mem_reverse] at hx
    rcases foldl_collapseStack_mem _ _ _ hx with h1 | h1
    · simp at h1
    · exact ⟨h1.2.1, h1.2.2, not_sep_of_mem_splitChar x h1.1⟩
  have hres : noDotSegs (joinSlash ((splitChar '/' p).foldl collapseStack []).reverse) := by
    cases hsegs : ((splitChar '/' p).foldl collapseStack []).reverse with
    | nil => exact noDotSegs_nil
    | cons u us =>
      rw [← hsegs]
      intro t ht
      rw [splitChar_joinSlash _ (by rw [hsegs]; exact List.cons_ne_nil u us)
        (fun x hx => (hmem x hx).2.2)] at ht
      exact ⟨(hmem t ht).1, (hmem t ht).2.1⟩
  split
  · exact noDotSegs_cons_slash hres
  · exact hres

/-! ## `trim_end_matches` lemmas -/

lemma endsWith_nil_iff {pat : Str} : endsWith [] pat = true ↔ pat = [] := by
  rw [endsWith_iff, List.suffix_nil]

lemma trimEndAux_congr :
    ∀ (f₁ f₂ : Nat) (s pat : Str), s.length ≤ f₁ → s.length ≤ f₂ →
      trimEndAux f₁ s pat = trimEndAux f₂ s pat := by
  intro f₁
  induction f₁ with
  | zero =>
    intro f₂ s pat h1 _
    have hs : s = [] := List.length_eq_zero.mp (Nat.le_zero.mp h1)
    subst hs
    cases f₂ with
    | zero => rfl
    | succ g =>
      show trimEndAux 0 [] pat = trimEndAux (g + 1) [] pat
      simp only [trimEndAux]
      rw [if_neg]
      rintro ⟨hne, hend⟩
      exact hne (endsWith_nil_iff.mp hend)
  | succ f ih =>
    intro f₂ s pat h1 h2
    cases f₂ with
    | zero =>
      have hs : s = [] := List.length_eq_zero.mp (Nat.le_zero.mp h2)
      subst hs
      show trimEndAux (f + 1) [] pat = trimEndAux 0 [] pat
      simp only [trimEndAux]
      rw [if_neg]
      rintro ⟨hne, hend⟩
      exact hne (endsWith_nil_iff.mp hend)
    | succ g =>
      simp only [trimEndAux]
      split
      · rename_i hcond
        have hple : pat.length ≤ s.length := (endsWith_iff.mp hcond.2).length_le
        have hppos : 0 < pat.length := List.length_pos.mpr hcond.1
        have hlen : (s.take (s.length - pat.length)).length = s.length - pat.length := by
          rw [List.length_take]
          omega
        exact ih g _ pat (by omega) (by omega)
      · rfl

lemma trim_of_not_ends {s pat : Str} (h : ¬ endsWith s pat = true) :
    trim_end_matches s pat = s := by
  unfold trim_end_matches
  cases s with
  | nil => rfl
  | cons c cs =>
    show trimEndAux (cs.length + 1) (c :: cs) pat = c :: cs
    simp only [trimEndAux]
    rw [if_neg]
    rintro ⟨_, hend⟩
    exact h hend

lemma trim_append (t pat : Str) (hpat : pat ≠ []) :
    trim_end_matches (t ++ pat) pat = trim_end_matches t pat := by
  unfold trim_end_matches
  have hppos : 0 < pat.length := List.length_pos.mpr hpat
  obtain ⟨m, hm⟩ : ∃ m, (t ++ pat).length = m + 1 := by
    rw [List.length_append]
    exact ⟨t.length + pat.length - 1, by omega⟩
  rw [hm]
  simp only [trimEndAux]
  rw [if_pos ⟨hpat, endsWith_iff.mpr (List.suffix_append t pat)⟩]
  have htake : (t ++ pat).take ((t ++ pat).length - pat.length) = t := by
    rw [List.length_append, Nat.add_sub_cancel]
    exact List.take_left t pat
  rw [htake]
  apply trimEndAux_congr
  · rw [List.length_append] at hm
    omega
  · exact Nat.le_refl _

lemma trim_not_ends_aux :
    ∀ (n : Nat) (s pat : Str), s.length ≤ n → pat ≠ [] →
      endsWith (trim_end_matches s pat) pat = false := by
  intro n
  induction n with
  | zero =>
    intro s pat h1 hpat
    have hs : s = [] := List.length_eq_zero.mp (Nat.le_zero.mp h1)
    subst hs
    have hne : ¬ endsWith ([] : Str) pat = true := fun hh => hpat (endsWith_nil_iff.mp hh)
    rw [trim_of_not_ends hne]
    exact Bool.not_eq_true _ ▸ (Bool.eq_false_iff.mpr (fun hh => hne hh))
  | succ m ih =>
    intro s pat h1 hpat
    by_cases h : endsWith s pat = true
    · obtain ⟨t, rfl⟩ := endsWith_iff.mp h
      rw [trim_append t pat hpat]
      have hppos : 0 < pat.length := List.length_pos.mpr hpat
      apply ih t pat _ hpat
      rw [List.length_append] at h1
      omega
    · rw [trim_of_not_ends h]
      exact Bool.eq_false_iff.mpr h

lemma trim_not_ends {s pat : Str} (hpat : pat ≠ []) :
    endsWith (trim_end_matches s pat) pat = false :=
  trim_not_ends_aux s.length s pat (Nat.le_refl _) hpat

lemma trim_append_single {t pat : Str} (hpat : pat ≠ [])
    (hne : endsWith t pat = false) : trim_end_matches (t ++ pat) pat = t := by
  rw [trim_append t pat hpat, trim_of_not_ends (by rw [hne]; exact Bool.false_ne_true)]

/-! ## `endsWith` and `getLast?` lemmas -/

lemma endsWith_single_iff {s : Str} {c : Char} :
    endsWith s [c] = true ↔ s.getLast? = some c := by
  rw [endsWith_iff]
  constructor
  · rintro ⟨t, rfl⟩
    exact List.getLast?_concat t
  · intro h
    exact ⟨s.dropLast, List.dropLast_append_getLast? c (by rw [h]; rfl)⟩

lemma getLast?_of_endsWith {q pat : Str} (h : endsWith q pat = true) (hpat : pat ≠ []) :
    q.getLast? = pat.getLast? := by
  obtain ⟨t, rfl⟩ := endsWith_iff.mp h
  exact List.getLast?_append_of_ne_nil t hpat

lemma endsWith_false_of_getLast_ne {q pat : Str} {c d : Char}
    (hq : q.getLast? = some c) (hpat : pat.getLast? = some d) (hne : c ≠ d) :
    endsWith q pat = false := by
  cases hqp : endsWith q pat with
  | false => rfl
  | true =>
    exfalso
    have hp : pat ≠ [] := by
      intro hh
      subst hh
      simp at hpat
    have := getLast?_of_endsWith hqp hp
    rw [hq, hpat] at this
    exact hne (Option.some.inj this)

/-! ## `strip_index` lemmas -/

lemma noDot_extract {t x : Str} (hx : '/' ∉ x) (h : noDotSegs (t ++ '/' :: x)) :
    ∀ u ∈ splitChar '/' t, u ≠ ['.'] ∧ u ≠ ['.', '.'] := by
  intro u hu
  apply h
  rw [splitChar_append, splitChar_of_not_mem hx]
  exact List.mem_append_left _ hu

lemma noDot_concat_slash {t : Str}
    (h : ∀ u ∈ splitChar '/' t, u ≠ ['.'] ∧ u ≠ ['.', '.']) :
    noDotSegs (t ++ ['/']) := by
  intro u hu
  have : (t ++ ['/'] : Str) = t ++ '/' :: ([] : Str) := by simp
  rw [this, splitChar_append] at hu
  rcases List.mem_append.mp hu with h1 | h1
  · exact h u h1
  · simp only [splitChar] at h1
    rcases List.mem_singleton.mp h1 with rfl
    exact ⟨by simp, by simp⟩

lemma noDot_append_slash {p : Str} (h : noDotSegs p) : noDotSegs (p ++ ['/']) :=
  noDot_concat_slash fun u hu => h u hu

/-- If a string already ends in `/` (or is `/` itself) no branch of the
index-stripping phase fires. -/
lemma strip_index_of_endsSlash {q : Str} (cfg : UrlNormalizationConfig)
    (h : q.getLast? = some '/') : strip_index q cfg = q := by
  unfold strip_index
  have h1 : endsWith q (str "/index.html") = false :=
    endsWith_false_of_getLast_ne (d := 'l') h (by decide) (by decide)
  have h2 : endsWith q (str "/index.htm") = false :=
    endsWith_false_of_getLast_ne (d := 'm') h (by decide) (by decide)
  have h3 : ¬(q = str "index.html" ∨ q = str "/index.html"
      ∨ q = str "index.htm" ∨ q = str "/index.htm") := by
    rintro (rfl | rfl | rfl | rfl) <;> exact absurd h (by decide)
  by_cases hforbid : cfg.index_html = IndexHtml.forbid
  · rw [if_pos hforbid, if_neg (by rw [h1]; exact Bool.false_ne_true),
      if_neg (by rw [h2]; exact Bool.false_ne_true), if_neg h3]
  · rw [if_neg hforbid]

/-- Shape of the index-stripping result: unchanged, or ending in `/`. -/
lemma strip_index_shape (p : Str) (cfg : UrlNormalizationConfig) :
    strip_index p cfg = p ∨ (strip_index p cfg).getLast? = some '/' := by
  unfold strip_index
  split
  · split
    · rename_i hb1
      obtain ⟨t, ht⟩ := endsWith_iff.mp hb1
      have hsplit : p = (t ++ ['/']) ++ str "index.html" := by
        rw [← ht]
        simp [str]
      right
      rw [hsplit, trim_append_single (by decide)
        (endsWith_false_of_getLast_ne (d := 'l') (List.getLast?_concat t) (by decide) (by decide))]
      exact List.getLast?_concat t
    · split
      · rename_i hb2
        obtain ⟨t, ht⟩ := endsWith_iff.mp hb2
        have hsplit : p = (t ++ ['/']) ++ str "index.htm" := by
          rw [← ht]
          simp [str]
        right
        rw [hsplit, trim_append_single (by decide)
          (endsWith_false_of_getLast_ne (d := 'm') (List.getLast?_concat t) (by decide) (by decide))]
        exact List.getLast?_concat t
      · split
        · right
          rfl
        · left
          rfl
  · left
    rfl

lemma strip_index_idem (p : Str) (cfg : UrlNormalizationConfig) :
    strip_index (strip_index p cfg) cfg = strip_index p cfg := by
  rcases strip_index_shape p cfg with h | h
  · rw [h, h]
  · exact strip_index_of_endsSlash cfg h

lemma strip_index_noDot {p : Str} (cfg : UrlNormalizationConfig) (h : noDotSegs p) :
    noDotSegs (strip_index p cfg) := by
  unfold strip_index
  split
  · split
    · rename_i hb1
      obtain ⟨t, ht⟩ := endsWith_iff.mp hb1
      have hsplit : p = (t ++ ['/']) ++ str "index.html" := by
        rw [← ht]; simp [str]
      rw [hsplit, trim_append_single (by decide)
        (endsWith_false_of_getLast_ne (d := 'l') (List.getLast?_concat t) (by decide) (by decide))]
      apply noDot_concat_slash
      apply noDot_extract (x := str "index.html") (by decide)
      rw [← ht] at h
      simpa [str] using h
    · split
      · rename_i hb2
        obtain ⟨t, ht⟩ := endsWith_iff.mp hb2
        have hsplit : p = (t ++ ['/']) ++ str "index.htm" := by
          rw [← ht]; simp [str]
        rw [hsplit, trim_append_single (by decide)
          (endsWith_false_of_getLast_ne (d := 'm') (List.getLast?_concat t) (by decide) (by decide))]
        apply noDot_concat_slash
        apply noDot_extract (x := str "index.htm") (by decide)
        rw [← ht] at h
        simpa [str] using h
      · split
        · intro t ht
          simp only [str] at ht
          rcases (by simpa [splitChar] using ht : t = [] ∨ t = []) with rfl | rfl <;>
            exact ⟨by simp, by simp⟩
        · exact h
  · exact h

lemma strip_index_allow {p : Str} {cfg : UrlNormalizationConfig}
    (h : cfg.index_html = IndexHtml.allow) : strip_index p cfg = p := by
  unfold strip_index
  rw [if_neg (by rw [h]; intro hh; cases hh)]

/-! ## `apply_trailing` lemmas -/

lemma noDot_trim_slash_aux :
    ∀ (n : Nat) (s : Str), s.length ≤ n → noDotSegs s →
      noDotSegs (trim_end_matches s ['/']) := by
  intro n
  induction n with
  | zero =>
    intro s h1 h2
    have hs : s = [] := List.length_eq_zero.mp (Nat.le_zero.mp h1)
    subst hs
    rw [trim_of_not_ends (by rw [show endsWith [] ['/'] = false from rfl]; exact Bool.false_ne_true)]
    exact h2
  | succ m ih =>
    intro s h1 h2
    by_cases h : endsWith s ['/'] = true
    · obtain ⟨t, rfl⟩ := endsWith_iff.mp h
      rw [trim_append t ['/'] (by decide)]
      apply ih t (by simp at h1; omega)
      intro u hu
      apply h2
      have : (t ++ ['/'] : Str) = t ++ '/' :: ([] : Str) := by simp
      rw [this, splitChar_append]
      exact List.mem_append_left _ hu
    · rw [trim_of_not_ends h]
      exact h2

lemma noDot_trim_slash {s : Str} (h : noDotSegs s) :
    noDotSegs (trim_end_matches s ['/']) :=
  noDot_trim_slash_aux s.length s (Nat.le_refl _) h

lemma apply_trailing_noDot {p : Str} (cfg : UrlNormalizationConfig) (h : noDotSegs p) :
    noDotSegs (apply_trailing p cfg) := by
  unfold apply_trailing
  split
  · cases cfg.trailing_slash with
    | always =>
      simp only
      split
      · exact noDot_append_slash h
      · exact h
    | never =>
      simp only
      split
      · exact noDot_trim_slash h
      · exact h
    | ignore => exact h
  · exact h

lemma apply_trailing_always_shape (p : Str) {cfg : UrlNormalizationConfig}
    (hts : cfg.trailing_slash = TrailingSlash.always) :
    apply_trailing p cfg = str "/" ∨ (apply_trailing p cfg).getLast? = some '/' := by
  unfold apply_trailing
  split
  · rw [hts]
    simp only
    split
    · right
      exact List.getLast?_concat p
    · rename_i hend
      right
      rw [Bool.not_eq_true', Bool.not_eq_false] at hend
      exact endsWith_single_iff.mp hend
  · rename_i hp
    left
    rw [Decidable.not_not] at hp
    exact hp

lemma apply_trailing_always_fixed {q : Str} {cfg : UrlNormalizationConfig}
    (hts : cfg.trailing_slash = TrailingSlash.always)
    (h : q = str "/" ∨ q.getLast? = some '/') : apply_trailing q cfg = q := by
  unfold apply_trailing
  rcases h with rfl | h
  · rw [if_neg (by simp)]
  · split
    · rw [hts]
      simp only
      rw [if_neg (by rw [endsWith_single_iff.mpr h]; simp)]
    · rfl

lemma apply_trailing_ignore {p : Str} {cfg : UrlNormalizationConfig}
    (hts : cfg.trailing_slash = TrailingSlash.ignore) : apply_trailing p cfg = p := by
  unfold apply_trailing
  rw [hts]
  split <;> rfl

lemma apply_trailing_never_shape (p : Str) {cfg : UrlNormalizationConfig}
    (hts : cfg.trailing_slash = TrailingSlash.never) :
    apply_trailing p cfg = str "/" ∨ endsWith (apply_trailing p cfg) ['/'] = false := by
  unfold apply_trailing
  by_cases hp : p ≠ str "/"
  · rw [if_pos hp, hts]
    simp only
    by_cases hcond : (endsWith p ['/'] && decide (p.length > 1)) = true
    · rw [if_pos hcond]
      right
      exact trim_not_ends (by decide)
    · rw [if_neg hcond]
      right
      cases hend : endsWith p ['/'] with
      | false => rfl
      | true =>
        exfalso
        rw [Bool.and_eq_true] at hcond
        have hlen : ¬(decide (p.length > 1) = true) := fun hh => hcond ⟨hend, hh⟩
        simp only [decide_eq_true_eq, not_lt] at hlen
        obtain ⟨t, ht⟩ := endsWith_iff.mp hend
        have hlen2 : t.length + 1 = p.length := by
          simpa using congrArg List.length ht
        have ht0 : t = [] := List.length_eq_zero.mp (by omega)
        subst ht0
        exact hp (by simpa [str] using ht.symm)
  · rw [if_neg hp]
    left
    rw [Decidable.not_not] at hp
    exact hp

lemma apply_trailing_never_fixed {q : Str} {cfg : UrlNormalizationConfig}
    (hts : cfg.trailing_slash = TrailingSlash.never)
    (h : q = str "/" ∨ endsWith q ['/'] = false) : apply_trailing q cfg = q := by
  unfold apply_trailing
  rcases h with rfl | h
  · rw [if_neg (by simp)]
  · split
    · rw [hts]
      simp only
      rw [if_neg (by rw [h]; simp)]
    · rfl

/-! ## Idempotence of `normalize_path` (claim C1) -/

lemma normalize_path_idem_of (p : Str) (cfg : UrlNormalizationConfig)
    (h : cfg.trailing_slash ≠ TrailingSlash.never ∨ cfg.index_html = IndexHtml.allow) :
    normalize_path (normalize_path p cfg) cfg = normalize_path p cfg := by
  cases hts : cfg.trailing_slash with
  | always =>
    have hndq : noDotSegs (normalize_path p cfg) :=
      apply_trailing_noDot cfg (strip_index_noDot cfg (collapse_dots_noDot p))
    have hshape : normalize_path p cfg = str "/" ∨
        (normalize_path p cfg).getLast? = some '/' :=
      apply_trailing_always_shape (strip_index (collapse_dots p) cfg) hts
    show apply_trailing (strip_index (collapse_dots (normalize_path p cfg)) cfg) cfg
      = normalize_path p cfg
    rw [collapse_dots_fixed hndq]
    have hstrip : strip_index (normalize_path p cfg) cfg = normalize_path p cfg := by
      rcases hshape with hq | hq
      · rw [hq]
        exact strip_index_of_endsSlash cfg (by decide)
      · exact strip_index_of_endsSlash cfg hq
    rw [hstrip]
    exact apply_trailing_always_fixed hts hshape
  | ignore =>
    have hnds : noDotSegs (strip_index (collapse_dots p) cfg) :=
      strip_index_noDot cfg (collapse_dots_noDot p)
    have hq : normalize_path p cfg = strip_index (collapse_dots p) cfg :=
      apply_trailing_ignore hts
    show apply_trailing (strip_index (collapse_dots (normalize_path p cfg)) cfg) cfg
      = normalize_path p cfg
    rw [apply_trailing_ignore hts, hq, collapse_dots_fixed hnds, strip_index_idem]
  | never =>
    have hia : cfg.index_html = IndexHtml.allow := by
      rcases h with h | h
      · exact absurd hts h
      · exact h
    have hndq : noDotSegs (normalize_path p cfg) :=
      apply_trailing_noDot cfg (strip_index_noDot cfg (collapse_dots_noDot p))
    have hshape : normalize_path p cfg = str "/" ∨
        endsWith (normalize_path p cfg) ['/'] = false :=
      apply_trailing_never_shape (strip_index (collapse_dots p) cfg) hts
    show apply_trailing (strip_index (collapse_dots (normalize_path p cfg)) cfg) cfg
      = normalize_path p cfg
    rw [collapse_dots_fixed hndq, strip_index_allow hia]
    exact apply_trailing_never_fixed hts hshape

/-- C1 (amended).  `normalize_path` is total by construction and
idempotent for every normalization policy except the combination
trailing-slash `Never` with index-file `Forbid`: whenever the policy has
trailing-slash `Always` or `Ignore`, or keeps index files (`Allow`),
re-normalizing an already-normalized path returns the same string. -/
theorem c1_normalize_path_idempotent (p : Str) (cfg : UrlNormalizationConfig)
    (h : cfg.trailing_slash ≠ TrailingSlash.never ∨ cfg.index_html = IndexHtml.allow) :
    normalize_path (normalize_path p cfg) cfg = normalize_path p cfg :=
  normalize_path_idem_of p cfg h

/-- Witness for C1: the amended idempotence theorem applied at the
concrete path `/about` under the Always/Forbid policy. -/
theorem c1_normalize_path_idempotent_witness :
    normalize_path (normalize_path (str "/about")
        ⟨TrailingSlash.always, IndexHtml.forbid⟩) ⟨TrailingSlash.always, IndexHtml.forbid⟩
      = normalize_path (str "/about") ⟨TrailingSlash.always, IndexHtml.forbid⟩ :=
  c1_normalize_path_idempotent (str "/about") ⟨TrailingSlash.always, IndexHtml.forbid⟩
    (Or.inl (by decide))

/-- Counterexample to C1 as stated: under the policy trailing-slash
`Never` with index-file `Forbid`, normalizing `/a/index.html/` yields
`/a/index.html`, and normalizing again yields `/a`, so `normalize_path`
is not idempotent for every input and policy. -/
theorem c1_normalize_path_not_idempotent_counterexample :
    normalize_path (normalize_path (str "/a/index.html/")
        ⟨TrailingSlash.never, IndexHtml.forbid⟩) ⟨TrailingSlash.never, IndexHtml.forbid⟩
      ≠ normalize_path (str "/a/index.html/") ⟨TrailingSlash.never, IndexHtml.forbid⟩
    ∧ normalize_path (str "/a/index.html/") ⟨TrailingSlash.never, IndexHtml.forbid⟩
      = str "/a/index.html"
    ∧ normalize_path (str "/a/index.html")
        ⟨TrailingSlash.never, IndexHtml.forbid⟩ = str "/a" := by
  refine ⟨?_, ?_, ?_⟩ <;> decide

/-! ## Association-map and route-index lemmas (claims C7, C9) -/

lemma alistLookup_insert {β : Type} (m : List (Str × β)) (k r : Str) (v : β) :
    alistLookup (alistInsert m k v) r = if r = k then some v else alistLookup m r := by
  induction m with
  | nil =>
    simp only [alistInsert, alistLookup]
    by_cases h : r = k
    · rw [if_pos h.symm, if_pos h]
    · rw [if_neg (fun hh => h hh.symm), if_neg h]
  | cons a rest ih =>
    obtain ⟨ak, av⟩ := a
    simp only [alistInsert]
    by_cases h1 : ak = k
    · rw [if_pos h1]
      subst h1
      simp only [alistLookup]
      by_cases h2 : ak = r
      · rw [if_pos h2, if_pos h2.symm]
      · rw [if_neg h2, if_neg (fun hh => h2 hh.symm), if_neg h2]
    · rw [if_neg h1]
      simp only [alistLookup]
      by_cases h3 : ak = r
      · rw [if_pos h3, if_pos h3, if_neg (fun hh => h1 (h3.trans hh))]
      · rw [if_neg h3, if_neg h3, ih]

lemma buildRouteIndexAux_lookup_of_not_mem :
    ∀ (l : List PageInfo) (m : List (Str × Nat)) (i : Nat) (r : Str),
      r ∉ l.map PageInfo.route →
      alistLookup (buildRouteIndexAux m i l) r = alistLookup m r := by
  intro l
  induction l with
  | nil => intro m i r _; rfl
  | cons p rest ih =>
    intro m i r hr
    simp only [List.map_cons, List.mem_cons, not_or] at hr
    show alistLookup (buildRouteIndexAux (alistInsert m p.route i) (i + 1) rest) r
      = alistLookup m r
    rw [ih _ _ _ hr.2, alistLookup_insert, if_neg (fun hh => hr.1 hh)]

lemma buildRouteIndexAux_lookup_last :
    ∀ (l1 : List PageInfo) (q : PageInfo) (l2 : List PageInfo) (m : List (Str × Nat)) (i : Nat),
      q.route ∉ l2.map PageInfo.route →
      alistLookup (buildRouteIndexAux m i (l1 ++ q :: l2)) q.route = some (i + l1.length) := by
  intro l1
  induction l1 with
  | nil =>
    intro q l2 m i h2
    show alistLookup (buildRouteIndexAux (alistInsert m q.route i) (i + 1) l2) q.route
      = some (i + 0)
    rw [buildRouteIndexAux_lookup_of_not_mem l2 _ _ _ h2, alistLookup_insert, if_pos rfl]
    rfl
  | cons a l1' ih =>
    intro q l2 m i h2
    show alistLookup (buildRouteIndexAux (alistInsert m a.route i) (i + 1) (l1' ++ q :: l2))
      q.route = some (i + (a :: l1').length)
    rw [ih q l2 _ _ h2]
    simp only [List.length_cons]
    congr 1
    omega

lemma buildRouteIndexAux_lookup_some :
    ∀ (l : List PageInfo) (m : List (Str × Nat)) (i : Nat) (r : Str) (n : Nat),
      alistLookup (buildRouteIndexAux m i l) r = some n →
      alistLookup m r = some n ∨ ∃ j p, l.get? j = some p ∧ p.route = r ∧ n = i + j := by
  intro l
  induction l with
  | nil => intro m i r n h; exact Or.inl h
  | cons p rest ih =>
    intro m i r n h
    rcases ih _ _ _ _ h with h1 | ⟨j, p', hg, hr, hn⟩
    · rw [alistLookup_insert] at h1
      by_cases hrk : r = p.route
      · rw [if_pos hrk] at h1
        refine Or.inr ⟨0, p, rfl, hrk.symm, ?_⟩
        have hin := Option.some.inj h1
        omega
      · rw [if_neg hrk] at h1
        exact Or.inl h1
    · exact Or.inr ⟨j + 1, p', hg, hr, by omega⟩

lemma buildRouteIndexAux_isSome_mono :
    ∀ (l : List PageInfo) (m : List (Str × Nat)) (i : Nat) (r : Str),
      (alistLookup m r).isSome = true →
      (alistLookup (buildRouteIndexAux m i l) r).isSome = true := by
  intro l
  induction l with
  | nil => intro m i r h; exact h
  | cons p rest ih =>
    intro m i r h
    apply ih
    rw [alistLookup_insert]
    by_cases hrk : r = p.route
    · rw [if_pos hrk]; rfl
    · rw [if_neg hrk]; exact h

lemma buildRouteIndexAux_mem_isSome :
    ∀ (l : List PageInfo) (m : List (Str × Nat)) (i : Nat) (p : PageInfo),
      p ∈ l →
      (alistLookup (buildRouteIndexAux m i l) p.route).isSome = true := by
  intro l
  induction l with
  | nil => intro m i p h; cases h
  | cons a rest ih =>
    intro m i p h
    rcases List.mem_cons.mp h with rfl | h1
    · show (alistLookup (buildRouteIndexAux (alistInsert m p.route i) (i + 1) rest) p.route).isSome
        = true
      apply buildRouteIndexAux_isSome_mono
      rw [alistLookup_insert, if_pos rfl]
      rfl
    · exact ih _ _ _ h1

/-- C7.  Route collisions in `SiteIndex::build` do not crash: the
reduction is total, the colliding route key deterministically maps to
the later file in discovery order (here: page `q` at position
`l1.length`, after an earlier page `p` with the same route), and no
page or diagnostic is produced or dropped (the page list is stored
unchanged). -/
theorem c7_route_collision_last_wins (l1 l2 : List PageInfo) (p q : PageInfo)
    (sm df : List Str) (sf : Bool) (bu : Option Str)
    (hp : p ∈ l1) (hroute : p.route = q.route)
    (hlast : q.route ∉ l2.map PageInfo.route) :
    alistLookup (SiteIndex.build (l1 ++ q :: l2) sm df sf bu).route_to_index q.route
        = some l1.length
    ∧ (SiteIndex.build (l1 ++ q :: l2) sm df sf bu).pages.get? l1.length = some q
    ∧ (SiteIndex.build (l1 ++ q :: l2) sm df sf bu).pages = l1 ++ q :: l2 := by
  refine ⟨?_, ?_, rfl⟩
  · show alistLookup (buildRouteIndex (l1 ++ q :: l2)) q.route = some l1.length
    unfold buildRouteIndex
    rw [buildRouteIndexAux_lookup_last l1 q l2 [] 0 hlast]
    simp
  · show (l1 ++ q :: l2).get? l1.length = some q
    rw [List.get?_append_right (Nat.le_refl _)]
    simp

/-- Witness for C7: a two-page site whose files `index.html` and
`index.htm` both normalize to `/`; the key `/` maps to the second file. -/
theorem c7_route_collision_last_wins_witness :
    alistLookup (SiteIndex.build
        [⟨str "index.html", str "/", none, [], [], [], none, false⟩,
         ⟨str "index.htm", str "/", none, [], [], [], none, false⟩] [] [] false none).route_to_index
        (str "/") = some 1 := by
  have h := c7_route_collision_last_wins
    [⟨str "index.html", str "/", none, [], [], [], none, false⟩] []
    ⟨str "index.html", str "/", none, [], [], [], none, false⟩
    ⟨str "index.htm", str "/", none, [], [], [], none, false⟩
    [] [] false none (by simp) rfl (by simp)
  exact h.1

/-- C9.  Invariant of every built `SiteIndex`: every binding
`(route, i)` of `route_to_index` points at a valid page index whose
page carries that route, and every page's route is a key, so
`route_exists` holds for every page of the index. -/
theorem c9_route_index_valid :
    (∀ (pages : List PageInfo) (sm df : List Str) (sf : Bool) (bu : Option Str) (r : Str) (i : Nat),
        alistLookup (SiteIndex.build pages sm df sf bu).route_to_index r = some i →
        ∃ p, pages.get? i = some p ∧ p.route = r)
    ∧ (∀ (pages : List PageInfo) (sm df : List Str) (sf : Bool) (bu : Option Str) (p : PageInfo),
        p ∈ pages →
        (SiteIndex.build pages sm df sf bu).route_exists p.route = true) := by
  constructor
  · intro pages sm df sf bu r i h
    replace h : alistLookup (buildRouteIndexAux [] 0 pages) r = some i := h
    rcases buildRouteIndexAux_lookup_some pages [] 0 r i h with h1 | ⟨j, p, hg, hr, hn⟩
    · cases h1
    · exact ⟨p, by rw [hn]; simpa using hg, hr⟩
  · intro pages sm df sf bu p hp
    show (alistLookup (buildRouteIndexAux [] 0 pages) p.route).isSome = true
    exact buildRouteIndexAux_mem_isSome pages [] 0 p hp

/-- Witness for C9: both invariant parts evaluated on a concrete
one-page index. -/
theorem c9_route_index_valid_witness :
    (∃ p, [(⟨str "about/index.html", str "/about/", none, [], [], [], none, false⟩ : PageInfo)].get? 0
        = some p ∧ p.route = str "/about/")
    ∧ (SiteIndex.build [⟨str "about/index.html", str "/about/", none, [], [], [], none, false⟩]
        [] [] false none).route_exists (str "/about/") = true := by
  constructor
  · refine c9_route_index_valid.1 _ [] [] false none (str "/about/") 0 ?_
    decide
  · exact c9_route_index_valid.2
      [⟨str "about/index.html", str "/about/", none, [], [], [], none, false⟩]
      [] [] false none
      ⟨str "about/index.html", str "/about/", none, [], [], [], none, false⟩ (by simp)

/-! ## `is_internal` (claim C2) -/

/-- C2 (amended).  `is_internal`: a relative href (no `://`, no leading
`//`) is always internal; with no base URL configured a non-relative
href is never internal; a protocol-relative href borrows the base's
scheme and is internal exactly when the hosts match; an absolute href is
internal exactly when its *origin* (scheme, host, effective port) equals
the base URL's origin — host equality alone does not suffice. -/
theorem c2_is_internal_origin :
    (∀ href base_url, containsStr href (str "://") = false →
        startsWith href (str "//") = false → is_internal href base_url = true)
    ∧ (∀ href, is_internal href none
        = (!(containsStr href (str "://")) && !(startsWith href (str "//"))))
    ∧ (∀ href base bp hp, startsWith href (str "//") = true →
        parse_url base = some bp → parse_url (bp.scheme ++ ':' :: href) = some hp →
        is_internal href (some base) = decide (hp.host = bp.host))
    ∧ (∀ href base bp hp, containsStr href (str "://") = true →
        startsWith href (str "//") = false →
        parse_url base = some bp → parse_url href = some hp →
        is_internal href (some base) = decide (origin hp = origin bp)) := by
  refine ⟨?_, ?_, ?_, ?_⟩
  · intro href base_url h1 h2
    simp [is_internal, h1, h2]
  · intro href
    unfold is_internal
    cases hc : (!(containsStr href (str "://")) && !(startsWith href (str "//"))) with
    | true => simp
    | false =>
      rw [if_neg (by simp [hc])]
      cases hs : startsWith href (str "//") <;> simp
  · intro href base bp hp h1 h2 h3
    unfold is_internal
    rw [if_neg (by simp [h1]), if_pos h1]
    simp only [h2, h3]
  · intro href base bp hp h1 h2 h3 h4
    unfold is_internal
    rw [if_neg (by simp [h1, h2]), if_neg (by simp [h2])]
    simp only [h3, h4]

/-- Witness for C2: relative hrefs, protocol-relative hrefs with a
matching host, and a no-base case, all at concrete inputs. -/
theorem c2_is_internal_origin_witness :
    is_internal (str "about/page") none = true
    ∧ is_internal (str "//example.com/x") (some (str "https://example.com")) = true
    ∧ is_internal (str "https://example.com/about") (some (str "https://example.com")) = true := by
  refine ⟨?_, ?_, ?_⟩
  · exact c2_is_internal_origin.1 (str "about/page") none (by decide) (by decide)
  · have h := c2_is_internal_origin.2.2.1 (str "//example.com/x") (str "https://example.com")
      ⟨str "https", str "example.com", none, str "/"⟩
      ⟨str "https", str "example.com", none, str "/x"⟩ (by decide) (by decide) (by decide)
    rw [h]
    decide
  · have h := c2_is_internal_origin.2.2.2 (str "https://example.com/about")
      (str "https://example.com")
      ⟨str "https", str "example.com", none, str "/"⟩
      ⟨str "https", str "example.com", none, str "/about"⟩
      (by decide) (by decide) (by decide) (by decide)
    rw [h]
    decide

/-- Counterexample to C2 as stated: `http://example.com/page` against
base `https://example.com` — both parse and their hosts are equal, yet
`is_internal` returns `false`, because the code compares origins
(scheme included), not hosts. -/
theorem c2_is_internal_host_counterexample :
    is_internal (str "http://example.com/page") (some (str "https://example.com")) = false
    ∧ (parse_url (str "http://example.com/page")).map ParsedUrl.host
        = (parse_url (str "https://example.com")).map ParsedUrl.host
    ∧ (parse_url (str "http://example.com/page")).isSome = true := by
  refine ⟨?_, ?_, ?_⟩ <;> decide

/-! ## `resolve_href` (claim C3) -/

/-- C3.  `resolve_href` strips query and fragment first and resolves an
empty remainder to the page's own route; `../contact` from
`/blog/posts/` resolves to `/blog/contact` and `#section` from `/blog/`
to `/blog/`; a relative href (after cleaning) that does not start with
`/` resolves against the page directory with dot segments collapsed,
and one starting with `/` resolves to its own path with dot segments
collapsed. -/
theorem c3_resolve_href_spec :
    (∀ base_url, resolve_href (str "../contact") (str "/blog/posts/") base_url
        = some (str "/blog/contact"))
    ∧ (∀ base_url, resolve_href (str "#section") (str "/blog/") base_url
        = some (str "/blog/"))
    ∧ (∀ href page_route base_url, strip_fragment_and_query href = [] →
        resolve_href href page_route base_url = some page_route)
    ∧ (∀ href page_route base_url,
        containsStr (strip_fragment_and_query href) (str "://") = false →
        startsWith (strip_fragment_and_query href) (str "//") = false →
        startsWith (strip_fragment_and_query href) ['/'] = false →
        strip_fragment_and_query href ≠ [] →
        resolve_href href page_route base_url
          = some (collapse_dots (page_directory page_route ++ strip_fragment_and_query href)))
    ∧ (∀ href page_route base_url,
        containsStr (strip_fragment_and_query href) (str "://") = false →
        startsWith (strip_fragment_and_query href) (str "//") = false →
        startsWith (strip_fragment_and_query href) ['/'] = true →
        resolve_href href page_route base_url
          = some (collapse_dots (strip_fragment_and_query href))) := by
  refine ⟨fun _ => rfl, fun _ => rfl, ?_, ?_, ?_⟩
  · intro href page_route base_url h
    simp only [resolve_href, h]
    rfl
  · intro href page_route base_url h1 h2 h3 h4
    simp only [resolve_href]
    rw [if_neg h4, if_neg (by rw [h1, h2]; simp), if_neg (by rw [h3]; exact Bool.false_ne_true)]
  · intro href page_route base_url h1 h2 h3
    have h4 : strip_fragment_and_query href ≠ [] := by
      intro hh
      rw [hh] at h3
      exact absurd h3 (by decide)
    simp only [resolve_href]
    rw [if_neg h4, if_neg (by rw [h1, h2]; simp), if_pos h3]

/-- Witness for C3: the relative-resolution clauses applied at concrete
inputs (`other` and `/about` from `/blog/`, and a pure-fragment href). -/
theorem c3_resolve_href_spec_witness :
    resolve_href (str "other") (str "/blog/") none = some (str "/blog/other")
    ∧ resolve_href (str "/about") (str "/blog/") none = some (str "/about")
    ∧ resolve_href (str "?x=1") (str "/blog/") none = some (str "/blog/") := by
  refine ⟨?_, ?_, ?_⟩
  · have h := c3_resolve_href_spec.2.2.2.1 (str "other") (str "/blog/") none
      (by decide) (by decide) (by decide) (by decide)
    rw [h]
    decide
  · have h := c3_resolve_href_spec.2.2.2.2 (str "/about") (str "/blog/") none
      (by decide) (by decide) (by decide)
    rw [h]
    decide
  · exact c3_resolve_href_spec.2.2.1 (str "?x=1") (str "/blog/") none (by decide)

/-! ## Counting lemmas for the internal-links check (claims C4, C10) -/

lemma countRuleSel_append (r sel : Str) (a b : List Finding) :
    countRuleSel r sel (a ++ b) = countRuleSel r sel a + countRuleSel r sel b :=
  List.countP_append _ _ _

lemma countRuleSel_eq_zero_of_rule {r sel : Str} {l : List Finding}
    (h : ∀ f ∈ l, f.rule_id ≠ r) : countRuleSel r sel l = 0 := by
  apply List.countP_eq_zero.mpr
  intro f hf
  simp [h f hf]

lemma countRuleSel_eq_zero_of_sel {r sel : Str} {l : List Finding}
    (h : ∀ f ∈ l, f.selector ≠ sel) : countRuleSel r sel l = 0 := by
  apply List.countP_eq_zero.mpr
  intro f hf
  simp [h f hf]

lemma mem_queryParamFindings {config : Config} {page : PageInfo} {href : Str} {f : Finding}
    (hf : f ∈ queryParamFindings config page href) :
    f.rule_id = str "links/query-params" ∧ f.selector = anchorSelector href := by
  unfold queryParamFindings at hf
  split at hf
  · rcases List.mem_singleton.mp hf with rfl
    exact ⟨rfl, rfl⟩
  · simp at hf

lemma mem_mixedContentFindings {config : Config} {page : PageInfo} {href : Str} {f : Finding}
    (hf : f ∈ mixedContentFindings config page href) :
    f.rule_id = str "links/mixed-content" ∧ f.selector = anchorSelector href := by
  unfold mixedContentFindings at hf
  split at hf
  · rcases List.mem_singleton.mp hf with rfl
    exact ⟨rfl, rfl⟩
  · simp at hf

lemma mem_sameFragFindings {config : Config} {page : PageInfo} {href fragment : Str} {f : Finding}
    (hf : f ∈ sameFragFindings config page href fragment) :
    f.rule_id = str "links/broken-fragment" ∧ f.selector = anchorSelector href := by
  unfold sameFragFindings at hf
  split at hf
  · rcases List.mem_singleton.mp hf with rfl
    exact ⟨rfl, rfl⟩
  · simp at hf

lemma mem_brokenFindings {index : SiteIndex} {config : Config} {page : PageInfo}
    {href resolved : Str} {f : Finding}
    (hf : f ∈ brokenFindings index config page href resolved) :
    f.rule_id = str "links/broken" ∧ f.selector = anchorSelector href := by
  simp only [brokenFindings] at hf
  cases hre : index.route_exists (normalize_path resolved config.url_normalization) with
  | true => simp [hre] at hf
  | false =>
    cases hfe : index.file_exists (resolved.dropWhile (· = '/')) with
    | true => simp [hre, hfe] at hf
    | false =>
      simp only [hre, hfe, Bool.not_false, if_pos] at hf
      rcases List.mem_singleton.mp hf with rfl
      exact ⟨rfl, rfl⟩

lemma mem_crossFragFindings {index : SiteIndex} {config : Config} {page : PageInfo}
    {href resolved : Str} {f : Finding}
    (hf : f ∈ crossFragFindings index config page href resolved) :
    f.rule_id = str "links/broken-fragment" ∧ f.selector = anchorSelector href := by
  unfold crossFragFindings at hf
  split at hf
  · split at hf
    · split at hf
      · split at hf
        · split at hf
          · split at hf
            · rcases List.mem_singleton.mp hf with rfl
              exact ⟨rfl, rfl⟩
            · simp at hf
          · simp at hf
        · simp at hf
      · simp at hf
    · simp at hf
  · simp at hf

lemma countRuleSel_brokenFindings (index : SiteIndex) (config : Config) (page : PageInfo)
    (href resolved : Str) :
    countRuleSel (str "links/broken") (anchorSelector href)
        (brokenFindings index config page href resolved)
      = if !(index.route_exists (normalize_path resolved config.url_normalization))
            && !(index.file_exists (resolved.dropWhile (· = '/'))) then 1 else 0 := by
  unfold brokenFindings
  cases hre : index.route_exists (normalize_path resolved config.url_normalization) with
  | true => simp [countRuleSel, hre]
  | false =>
    cases hfe : index.file_exists (resolved.dropWhile (· = '/')) with
    | true => simp [countRuleSel, hre, hfe]
    | false => simp [countRuleSel, hre, hfe, List.countP_cons]

/-- Reduction of `processAnchor` for an internal, non-special-scheme,
non-fragment-only href. -/
lemma processAnchor_eq_of {index : SiteIndex} {config : Config} {page : PageInfo} {href : Str}
    (hint : is_internal href index.base_url = true)
    (hm : startsWith href (str "mailto:") = false)
    (htl : startsWith href (str "tel:") = false)
    (hj : startsWith href (str "javascript:") = false)
    (hfo : stripHashChar href = none) :
    processAnchor index config page href
      = queryParamFindings config page href ++ mixedContentFindings config page href ++
          match resolve_href href page.route index.base_url with
          | some resolved =>
            brokenFindings index config page href resolved
              ++ crossFragFindings index config page href resolved
          | none => [] := by
  unfold processAnchor
  rw [if_neg (by rw [hint]; simp), if_neg (by rw [hm, htl, hj]; simp), hfo]

/-- C4.  For an internal, non-fragment-only, non-`mailto:`/`tel:`/
`javascript:` anchor href that resolves, the internal-links check emits
exactly one `links/broken` finding referencing that href occurrence when
neither `route_exists` on the normalized route nor `file_exists` on the
resolved path holds, and none otherwise; `check_internal_links` is the
concatenation of this per-anchor output over every page and anchor. -/
theorem c4_broken_link_iff (index : SiteIndex) (config : Config) (page : PageInfo)
    (href resolved : Str)
    (hint : is_internal href index.base_url = true)
    (hm : startsWith href (str "mailto:") = false)
    (htl : startsWith href (str "tel:") = false)
    (hj : startsWith href (str "javascript:") = false)
    (hfo : stripHashChar href = none)
    (hres : resolve_href href page.route index.base_url = some resolved) :
    countRuleSel (str "links/broken") (anchorSelector href)
        (processAnchor index config page href)
      = (if !(index.route_exists (normalize_path resolved config.url_normalization))
            && !(index.file_exists (resolved.dropWhile (· = '/'))) then 1 else 0)
    ∧ check_internal_links index config
      = index.pages.flatMap fun p => p.anchors.flatMap (processAnchor index config p) := by
  refine ⟨?_, rfl⟩
  rw [processAnchor_eq_of hint hm htl hj hfo, hres]
  show countRuleSel (str "links/broken") (anchorSelector href)
      (queryParamFindings config page href ++ mixedContentFindings config page href ++
        (brokenFindings index config page href resolved
          ++ crossFragFindings index config page href resolved)) = _
  rw [countRuleSel_append, countRuleSel_append, countRuleSel_append,
    countRuleSel_eq_zero_of_rule (l := queryParamFindings config page href)
      (fun f hf => by rw [(mem_queryParamFindings hf).1]; decide),
    countRuleSel_eq_zero_of_rule (l := mixedContentFindings config page href)
      (fun f hf => by rw [(mem_mixedContentFindings hf).1]; decide),
    countRuleSel_eq_zero_of_rule (l := crossFragFindings index config page href resolved)
      (fun f hf => by rw [(mem_crossFragFindings hf).1]; decide),
    countRuleSel_brokenFindings]
  omega

/-- Witness for C4: a page whose anchor `/missing/` resolves to a route
absent from a one-page site produces exactly one `links/broken` finding
for that occurrence. -/
theorem c4_broken_link_iff_witness :
    countRuleSel (str "links/broken") (anchorSelector (str "/missing/"))
        (processAnchor
          (SiteIndex.build [⟨str "index.html", str "/", none, [str "/missing/"], [], [], none, false⟩]
            [] [] false none)
          ⟨⟨TrailingSlash.always, IndexHtml.forbid⟩,
            ⟨true, false, false, false, false, false, false⟩,
            ⟨false, false, false, false⟩, ⟨false, false, false, false⟩⟩
          ⟨str "index.html", str "/", none, [str "/missing/"], [], [], none, false⟩
          (str "/missing/")) = 1 := by
  have h := (c4_broken_link_iff
    (SiteIndex.build [⟨str "index.html", str "/", none, [str "/missing/"], [], [], none, false⟩]
      [] [] false none)
    ⟨⟨TrailingSlash.always, IndexHtml.forbid⟩,
      ⟨true, false, false, false, false, false, false⟩,
      ⟨false, false, false, false⟩, ⟨false, false, false, false⟩⟩
    ⟨str "index.html", str "/", none, [str "/missing/"], [], [], none, false⟩
    (str "/missing/") (str "/missing/")
    (by decide) (by decide) (by decide) (by decide) (by decide) (by decide)).1
  rw [h]
  decide

/-! ## Empty-fragment hrefs (claim C10) -/

lemma splitHash_concat {p : Str} (h : '#' ∉ p) :
    splitChar '#' (p ++ ['#']) = [p, []] := by
  have heq : (p ++ ['#'] : Str) = p ++ '#' :: ([] : Str) := by simp
  rw [heq, splitChar_append, splitChar_of_not_mem h]
  rfl

lemma crossFrag_empty_frag {index : SiteIndex} {config : Config} {page : PageInfo}
    {resolved : Str} {p : Str} (h : '#' ∉ p) :
    crossFragFindings index config page (p ++ ['#']) resolved = [] := by
  unfold crossFragFindings
  rw [splitHash_concat h]
  split
  · simp
  · rfl

lemma anchorSelector_inj {a b : Str} (h : anchorSelector a = anchorSelector b) : a = b := by
  unfold anchorSelector at h
  rw [List.append_assoc, List.append_assoc] at h
  exact List.append_cancel_right (List.append_cancel_left h)

lemma processAnchor_selector {index : SiteIndex} {config : Config} {page : PageInfo}
    {a : Str} : ∀ f ∈ processAnchor index config page a, f.selector = anchorSelector a := by
  intro f hf
  unfold processAnchor at hf
  split at hf
  · simp at hf
  · split at hf
    · simp at hf
    · split at hf
      · exact (mem_sameFragFindings hf).2
      · rcases List.mem_append.mp hf with h1 | h1
        · rcases List.mem_append.mp h1 with h2 | h2
          · exact (mem_queryParamFindings h2).2
          · exact (mem_mixedContentFindings h2).2
        · split at h1
          · rcases List.mem_append.mp h1 with h2 | h2
            · exact (mem_brokenFindings h2).2
            · exact (mem_crossFragFindings h2).2
          · simp at h1

lemma processAnchor_empty_frag {index : SiteIndex} {config : Config} {page : PageInfo}
    {p : Str} (h : '#' ∉ p) :
    ∀ f ∈ processAnchor index config page (p ++ ['#']),
      f.rule_id ≠ str "links/broken-fragment" := by
  intro f hf
  unfold processAnchor at hf
  split at hf
  · simp at hf
  · split at hf
    · simp at hf
    · cases p with
      | nil =>
        rw [show stripHashChar ([] ++ ['#']) = some [] from rfl] at hf
        simp only [sameFragFindings] at hf
        rw [if_neg (by simp)] at hf
        simp at hf
      | cons c p' =>
        have hc : ¬ c = '#' := fun hh => h (by simp [hh])
        rw [show stripHashChar ((c :: p') ++ ['#']) = none by simp [stripHashChar, hc]] at hf
        rcases List.mem_append.mp hf with h1 | h1
        · rcases List.mem_append.mp h1 with h2 | h2
          · rw [(mem_queryParamFindings h2).1]
            decide
          · rw [(mem_mixedContentFindings h2).1]
            decide
        · split at h1
          · rcases List.mem_append.mp h1 with h2 | h2
            · rw [(mem_brokenFindings h2).1]
              decide
            · rw [crossFrag_empty_frag h] at h2
              simp at h2
          · simp at h1

/-- C10.  An anchor href whose fragment part is empty — the bare `#`, or
any href whose first `#` is its final character — never produces a
`links/broken-fragment` finding from the internal-links check, whatever
the configuration, the ids on any page, and the rest of the site. -/
theorem c10_empty_fragment_never_flagged (index : SiteIndex) (config : Config) (p : Str)
    (h : '#' ∉ p) :
    countRuleSel (str "links/broken-fragment") (anchorSelector (p ++ ['#']))
      (check_internal_links index config) = 0 := by
  apply List.countP_eq_zero.mpr
  intro f hf
  unfold check_internal_links at hf
  simp only [List.mem_flatMap] at hf
  obtain ⟨page, _, a, _, hfa⟩ := hf
  by_cases hae : a = p ++ ['#']
  · subst hae
    simp [processAnchor_empty_frag h f hfa]
  · have hsel : f.selector ≠ anchorSelector (p ++ ['#']) := by
      rw [processAnchor_selector f hfa]
      intro hh
      exact hae (anchorSelector_inj hh)
    simp [hsel]

/-- Witness for C10: the hrefs `#` and `/a/#` on a page produce no
broken-fragment finding even with fragment checking enabled and a target
page with no ids. -/
theorem c10_empty_fragment_never_flagged_witness :
    countRuleSel (str "links/broken-fragment") (anchorSelector (str "/a/" ++ ['#']))
      (check_internal_links
        (SiteIndex.build
          [⟨str "index.html", str "/", none, [str "#", str "/a/#"], [], [], none, false⟩,
           ⟨str "a/index.html", str "/a/", none, [], [], [], none, false⟩]
          [] [] false none)
        ⟨⟨TrailingSlash.always, IndexHtml.forbid⟩,
          ⟨true, false, false, false, true, false, false⟩,
          ⟨false, false, false, false⟩, ⟨false, false, false, false⟩⟩) = 0 :=
  c10_empty_fragment_never_flagged _ _ (str "/a/") (by decide)

/-! ## Orphan pages (claim C5) -/

/-- C5 (amended).  With orphan detection, a page (uniquely identified by
its file) whose route is absent from the global linked-to set — the
union of every page's resolved, normalized internal link targets,
*including the page's own links*, seeded with the root route `/` —
produces exactly one `links/orphan-page` finding; a page whose route is
the root `/` never produces one. -/
theorem c5_orphan_page_iff :
    (∀ (index : SiteIndex) (config : Config) (page : PageInfo),
        index.pages.filter (fun q => q.rel_path == page.rel_path) = [page] →
        (str "/" :: index.pages.flatMap (collect_targets index config)).contains page.route
          = false →
        countRuleFile (str "links/orphan-page") page.rel_path
          (check_orphan_pages index config) = 1)
    ∧ (∀ (index : SiteIndex) (config : Config) (page : PageInfo),
        index.pages.filter (fun q => q.rel_path == page.rel_path) = [page] →
        page.route = str "/" →
        countRuleFile (str "links/orphan-page") page.rel_path
          (check_orphan_pages index config) = 0) := by
  have key : ∀ (index : SiteIndex) (config : Config) (rp : Str),
      countRuleFile (str "links/orphan-page") rp (check_orphan_pages index config)
        = index.pages.countP fun q =>
            !((str "/" :: index.pages.flatMap (collect_targets index config)).contains q.route)
              && q.rel_path == rp := by
    intro index config rp
    unfold countRuleFile check_orphan_pages
    rw [List.countP_map, List.countP_filter]
    apply List.countP_congr
    intro q _
    simp only [Function.comp]
    rw [Bool.and_comm]
    congr 1
    simp
  constructor
  · intro index config page hu hnl
    rw [key index config page.rel_path]
    have h2 := (List.countP_filter
      (p := fun q : PageInfo =>
        !((str "/" :: index.pages.flatMap (collect_targets index config)).contains q.route))
      (q := fun q : PageInfo => q.rel_path == page.rel_path) index.pages).symm
    rw [h2, hu]
    simp only [List.countP_cons, List.countP_nil, hnl]
    rfl
  · intro index config page hu hroot
    rw [key index config page.rel_path]
    have h2 := (List.countP_filter
      (p := fun q : PageInfo =>
        !((str "/" :: index.pages.flatMap (collect_targets index config)).contains q.route))
      (q := fun q : PageInfo => q.rel_path == page.rel_path) index.pages).symm
    rw [h2, hu]
    have hc : (str "/" :: index.pages.flatMap (collect_targets index config)).contains page.route
        = true := by
      rw [hroot]
      simp
    simp only [List.countP_cons, List.countP_nil, hc]
    rfl

/-- Witness for C5: in a two-page site whose root links nowhere, the
unlinked page `/b/` yields exactly one orphan finding and the root page
yields none. -/
theorem c5_orphan_page_iff_witness :
    countRuleFile (str "links/orphan-page") (str "b/index.html")
        (check_orphan_pages
          (SiteIndex.build
            [⟨str "index.html", str "/", none, [], [], [], none, false⟩,
             ⟨str "b/index.html", str "/b/", none, [], [], [], none, false⟩]
            [] [] false none)
          ⟨⟨TrailingSlash.always, IndexHtml.forbid⟩,
            ⟨true, false, false, false, false, true, false⟩,
            ⟨false, false, false, false⟩, ⟨false, false, false, false⟩⟩) = 1
    ∧ countRuleFile (str "links/orphan-page") (str "index.html")
        (check_orphan_pages
          (SiteIndex.build
            [⟨str "index.html", str "/", none, [], [], [], none, false⟩,
             ⟨str "b/index.html", str "/b/", none, [], [], [], none, false⟩]
            [] [] false none)
          ⟨⟨TrailingSlash.always, IndexHtml.forbid⟩,
            ⟨true, false, false, false, false, true, false⟩,
            ⟨false, false, false, false⟩, ⟨false, false, false, false⟩⟩) = 0 :=
  ⟨c5_orphan_page_iff.1 _ _ ⟨str "b/index.html", str "/b/", none, [], [], [], none, false⟩
      (by decide) (by decide),
   c5_orphan_page_iff.2 _ _ ⟨str "index.html", str "/", none, [], [], [], none, false⟩
      (by decide) (by decide)⟩

/-- Counterexample to C5 as stated: page `/a/` links only to itself and
is the resolved target of no *other* page's links (the root's target set
is empty) and is not the root, yet `check_orphan_pages` emits no finding
at all — the linked-to union includes each page's own links. -/
theorem c5_self_link_counterexample :
    check_orphan_pages
        (SiteIndex.build
          [⟨str "index.html", str "/", none, [], [], [], none, false⟩,
           ⟨str "a/index.html", str "/a/", none, [str "/a/"], [], [], none, false⟩]
          [] [] false none)
        ⟨⟨TrailingSlash.always, IndexHtml.forbid⟩,
          ⟨true, false, false, false, false, true, false⟩,
          ⟨false, false, false, false⟩, ⟨false, false, false, false⟩⟩ = []
    ∧ collect_targets
        (SiteIndex.build
          [⟨str "index.html", str "/", none, [], [], [], none, false⟩,
           ⟨str "a/index.html", str "/a/", none, [str "/a/"], [], [], none, false⟩]
          [] [] false none)
        ⟨⟨TrailingSlash.always, IndexHtml.forbid⟩,
          ⟨true, false, false, false, false, true, false⟩,
          ⟨false, false, false, false⟩, ⟨false, false, false, false⟩⟩
        ⟨str "index.html", str "/", none, [], [], [], none, false⟩ = []
    ∧ str "/a/" ≠ str "/" := by
  refine ⟨?_, ?_, ?_⟩ <;> decide

/-! ## Hreflang reciprocity (claim C6) -/

lemma countRuleFile_append (r file : Str) (a b : List Finding) :
    countRuleFile r file (a ++ b) = countRuleFile r file a + countRuleFile r file b :=
  List.countP_append _ _ _

lemma countRuleFile_eq_zero_of_rule {r file : Str} {l : List Finding}
    (h : ∀ f ∈ l, f.rule_id ≠ r) : countRuleFile r file l = 0 := by
  apply List.countP_eq_zero.mpr
  intro f hf
  simp [h f hf]

lemma countRuleFile_eq_zero_of_file {r file : Str} {l : List Finding}
    (h : ∀ f ∈ l, f.file ≠ file) : countRuleFile r file l = 0 := by
  apply List.countP_eq_zero.mpr
  intro f hf
  simp [h f hf]

lemma build_pages (pages : List PageInfo) (sm df : List Str) (sf : Bool) (bu : Option Str) :
    (SiteIndex.build pages sm df sf bu).pages = pages := rfl

lemma mem_hreflangPageFindings {config : Config} {page : PageInfo} :
    ∀ f ∈ hreflangPageFindings config page,
      f.rule_id = str "hreflang/no-x-default" ∨ f.rule_id = str "hreflang/no-self-reference" := by
  intro f hf
  unfold hreflangPageFindings at hf
  split at hf
  · simp at hf
  · rcases List.mem_append.mp hf with h1 | h1
    · split at h1
      · rcases List.mem_singleton.mp h1 with rfl
        exact Or.inl rfl
      · simp at h1
    · split at h1
      · rcases List.mem_singleton.mp h1 with rfl
        exact Or.inr rfl
      · simp at h1

/-- C6 (amended).  In a two-page site where page A declares the single
non-x-default pair `(lang, href = B's absolute URL)`: when B declares at
least one hreflang pair, exactly one `hreflang/no-reciprocal` finding is
emitted on A iff none of B's pairs' hrefs equals A's absolute URL, and
no finding is ever emitted on B; when B declares no pairs at all, B is
absent from the collected pair map and *no* finding is emitted. -/
theorem c6_hreflang_reciprocal (A B : PageInfo) (ua ub lang : Str) (config : Config)
    (sm df : List Str) (sf : Bool) (bu : Option Str)
    (hcheck : config.hreflang.check_hreflang = true)
    (hrecip : config.hreflang.require_reciprocal = true)
    (hA : A.absolute_url = some ua)
    (hB : B.absolute_url = some ub)
    (hne : ua ≠ ub)
    (hApairs : A.hreflangs = [(lang, ub)])
    (hlang : ¬ lang = str "x-default")
    (hroute : A.route ≠ B.route)
    (hfile : A.rel_path ≠ B.rel_path) :
    countRuleFile (str "hreflang/no-reciprocal") A.rel_path
        (hreflang_check_all (SiteIndex.build [A, B] sm df sf bu) config)
      = (if B.hreflangs = [] then 0
         else if B.hreflangs.any (fun e => e.2 == ua) then 0 else 1)
    ∧ countRuleFile (str "hreflang/no-reciprocal") B.rel_path
        (hreflang_check_all (SiteIndex.build [A, B] sm df sf bu) config) = 0 := by
  have hAne : A.hreflangs ≠ [] := by rw [hApairs]; simp
  have hABr : (A.route == B.route) = false := beq_eq_false_iff_ne.mpr hroute
  have hBBr : (B.route == B.route) = true := beq_self_eq_true _
  have hAAr : (A.route == A.route) = true := beq_self_eq_true _
  have hAb : (A.absolute_url == some ub) = false := by
    rw [hA]
    exact beq_eq_false_iff_ne.mpr (by simp [hne])
  have hBb : (B.absolute_url == some ub) = true := by
    rw [hB]
    exact beq_self_eq_true _
  -- the check with both toggles on
  have hcheckall : hreflang_check_all (SiteIndex.build [A, B] sm df sf bu) config
      = [A, B].flatMap (hreflangPageFindings config) ++
          (allHreflangs [A, B]).flatMap (fun se =>
            se.2.flatMap fun e =>
              reciprocalPair (SiteIndex.build [A, B] sm df sf bu) (allHreflangs [A, B]) se.1 e.1 e.2) := by
    unfold hreflang_check_all
    rw [if_neg (by rw [hcheck]; simp), build_pages, if_pos hrecip]
  -- phase 1 never contributes to the no-reciprocal count
  have hphase1 : ∀ file : Str, countRuleFile (str "hreflang/no-reciprocal") file
      ([A, B].flatMap (hreflangPageFindings config)) = 0 := by
    intro file
    apply countRuleFile_eq_zero_of_rule
    intro f hf
    rcases List.mem_flatMap.mp hf with ⟨page, _, hfp⟩
    rcases mem_hreflangPageFindings f hfp with h | h <;> rw [h] <;> decide
  -- the source-page lookup used by the reciprocity pass
  have hfindA : [A, B].find? (fun p => p.route == A.route) = some A := by
    simp [List.find?, hAAr]
  have hfindBroute : [A, B].find? (fun p => p.route == B.route) = some B := by
    simp [List.find?, hABr, hBBr]
  have hfindB : [A, B].find? (fun p => p.absolute_url == some ub) = some B := by
    simp [List.find?, hAb, hBb]
  cases hents : B.hreflangs with
  | nil =>
    have hall : allHreflangs [A, B] = [(A.route, [(lang, ub)])] := by
      unfold allHreflangs
      simp only [List.foldl_cons, List.foldl_nil]
      rw [if_neg hAne, hApairs, if_pos hents]
      rfl
    have hlookBnone : alistLookup [(A.route, [(lang, ub)])] B.route = none := by
      simp only [alistLookup]
      rw [if_neg hroute]
    have hpA : reciprocalPair (SiteIndex.build [A, B] sm df sf bu)
        [(A.route, [(lang, ub)])] A.route lang ub = [] := by
      unfold reciprocalPair
      rw [if_neg hlang]
      simp only [build_pages, hfindB, hlookBnone]
    rw [hcheckall, hall]
    constructor
    · rw [countRuleFile_append, hphase1]
      simp only [List.flatMap_cons, List.flatMap_nil, List.append_nil, hpA]
      simp [countRuleFile]
    · rw [countRuleFile_append, hphase1]
      simp only [List.flatMap_cons, List.flatMap_nil, List.append_nil, hpA]
      simp [countRuleFile]
  | cons e es =>
    have hall : allHreflangs [A, B] = [(A.route, [(lang, ub)]), (B.route, e :: es)] := by
      unfold allHreflangs
      simp only [List.foldl_cons, List.foldl_nil]
      rw [if_neg hAne, hApairs, if_neg (by rw [hents]; simp), hents]
      show alistInsert [(A.route, [(lang, ub)])] B.route (e :: es) = _
      simp only [alistInsert]
      rw [if_neg hroute]
    have hlookB : alistLookup [(A.route, [(lang, ub)]), (B.route, e :: es)] B.route
        = some (e :: es) := by
      simp only [alistLookup]
      rw [if_neg hroute]
      simp
    have hlookA : alistLookup [(A.route, [(lang, ub)]), (B.route, e :: es)] A.route
        = some [(lang, ub)] := by
      simp only [alistLookup]
      simp
    -- the A-sourced pair: a finding exactly when B does not link back
    have hpA : reciprocalPair (SiteIndex.build [A, B] sm df sf bu)
        [(A.route, [(lang, ub)]), (B.route, e :: es)] A.route lang ub
        = (if (e :: es).any (fun x => x.2 == ua) then []
           else [⟨Level.warning, str "hreflang/no-reciprocal", A.rel_path,
             str "link[hreflang=\x27" ++ lang ++ str "\x27][href=\x27" ++ ub ++ str "\x27]",
             str "Hreflang target \x27" ++ ub ++ str "\x27 (lang=\x27" ++ lang
               ++ str "\x27) doesn\x27t link back",
             str "Add reciprocal hreflang link on the target page"⟩]) := by
      unfold reciprocalPair
      rw [if_neg hlang]
      simp only [build_pages, hfindB, hlookB, hfindA, Option.some_bind, hA]
      cases hany : (e :: es).any (fun x => x.2 == ua) with
      | true => simp [hany]
      | false => simp [hany]
    -- every B-sourced pair is silent
    have hpB : ∀ x ∈ e :: es,
        reciprocalPair (SiteIndex.build [A, B] sm df sf bu)
          [(A.route, [(lang, ub)]), (B.route, e :: es)] B.route x.1 x.2 = [] := by
      intro x hx
      unfold reciprocalPair
      by_cases hx1 : x.1 = str "x-default"
      · rw [if_pos hx1]
      · rw [if_neg hx1]
        simp only [build_pages]
        by_cases hxa : ua = x.2
        · have hf1 : (A.absolute_url == some x.2) = true := by
            rw [hA, hxa]
            exact beq_self_eq_true _
          have hfind1 : [A, B].find? (fun p => p.absolute_url == some x.2) = some A := by
            simp [List.find?, hf1]
          have hself : ([(lang, ub)].any fun y => y.2 == ub) = true := by simp
          simp only [hfind1, hlookA, hfindBroute, Option.some_bind, hB, hself]
          simp
        · by_cases hxb : ub = x.2
          · have hf1 : (A.absolute_url == some x.2) = false := by
              rw [hA]
              exact beq_eq_false_iff_ne.mpr (by simp [hxa])
            have hf2 : (B.absolute_url == some x.2) = true := by
              rw [hB, hxb]
              exact beq_self_eq_true _
            have hfind2 : [A, B].find? (fun p => p.absolute_url == some x.2) = some B := by
              simp [List.find?, hf1, hf2]
            have hany2 : ((e :: es).any fun y => y.2 == ub) = true :=
              List.any_eq_true.mpr ⟨x, hx, by rw [← hxb]; exact beq_self_eq_true _⟩
            simp only [hfind2, hlookB, hfindBroute, Option.some_bind, hB, hany2]
            simp
          · have hf1 : (A.absolute_url == some x.2) = false := by
              rw [hA]
              exact beq_eq_false_iff_ne.mpr (by simp [hxa])
            have hf2 : (B.absolute_url == some x.2) = false := by
              rw [hB]
              exact beq_eq_false_iff_ne.mpr (by simp [hxb])
            have hfind3 : [A, B].find? (fun p => p.absolute_url == some x.2) = none := by
              simp [List.find?, hf1, hf2]
            simp only [hfind3]
    have hpartB : ∀ file : Str, countRuleFile (str "hreflang/no-reciprocal") file
        (reciprocalPair (SiteIndex.build [A, B] sm df sf bu)
            [(A.route, [(lang, ub)]), (B.route, e :: es)] B.route e.1 e.2
          ++ es.flatMap fun x =>
            reciprocalPair (SiteIndex.build [A, B] sm df sf bu)
              [(A.route, [(lang, ub)]), (B.route, e :: es)] B.route x.1 x.2) = 0 := by
      intro file
      rw [countRuleFile_append, hpB e (by simp)]
      have hz : countRuleFile (str "hreflang/no-reciprocal") file
          (es.flatMap fun x =>
            reciprocalPair (SiteIndex.build [A, B] sm df sf bu)
              [(A.route, [(lang, ub)]), (B.route, e :: es)] B.route x.1 x.2) = 0 := by
        apply List.countP_eq_zero.mpr
        intro f hf
        rcases List.mem_flatMap.mp hf with ⟨x, hx, hfx⟩
        rw [hpB x (List.mem_cons_of_mem e hx)] at hfx
        simp at hfx
      rw [hz]
      simp [countRuleFile]
    rw [hcheckall, hall]
    constructor
    · rw [countRuleFile_append, hphase1]
      simp only [List.flatMap_cons, List.flatMap_nil, List.append_nil]
      rw [countRuleFile_append, hpA, hpartB]
      cases hany : (e :: es).any (fun x => x.2 == ua) with
      | true => simp [hany, countRuleFile]
      | false => simp [hany, countRuleFile]
    · rw [countRuleFile_append, hphase1]
      simp only [List.flatMap_cons, List.flatMap_nil, List.append_nil]
      rw [countRuleFile_append, hpA, hpartB]
      cases hany : (e :: es).any (fun x => x.2 == ua) with
      | true => simp [hany, countRuleFile]
      | false =>
        have hfb : (A.rel_path == B.rel_path) = false := beq_eq_false_iff_ne.mpr hfile
        simp [hany, countRuleFile, hfb]

/-- Witness for C6: page `/de/` points at `/en/`, which declares a pair
but not one back to `/de/` — exactly one `hreflang/no-reciprocal`
finding on the `/de/` file and none on the `/en/` file. -/
theorem c6_hreflang_reciprocal_witness :
    countRuleFile (str "hreflang/no-reciprocal") (str "de/index.html")
        (hreflang_check_all
          (SiteIndex.build
            [⟨str "de/index.html", str "/de/", some (str "https://e.com/de/"), [], [],
              [(str "en", str "https://e.com/en/")], none, false⟩,
             ⟨str "en/index.html", str "/en/", some (str "https://e.com/en/"), [], [],
              [(str "fr", str "https://e.com/fr/")], none, false⟩]
            [] [] false none)
          ⟨⟨TrailingSlash.always, IndexHtml.forbid⟩,
            ⟨false, false, false, false, false, false, false⟩,
            ⟨true, false, false, true⟩, ⟨false, false, false, false⟩⟩) = 1
    ∧ countRuleFile (str "hreflang/no-reciprocal") (str "en/index.html")
        (hreflang_check_all
          (SiteIndex.build
            [⟨str "de/index.html", str "/de/", some (str "https://e.com/de/"), [], [],
              [(str "en", str "https://e.com/en/")], none, false⟩,
             ⟨str "en/index.html", str "/en/", some (str "https://e.com/en/"), [], [],
              [(str "fr", str "https://e.com/fr/")], none, false⟩]
            [] [] false none)
          ⟨⟨TrailingSlash.always, IndexHtml.forbid⟩,
            ⟨false, false, false, false, false, false, false⟩,
            ⟨true, false, false, true⟩, ⟨false, false, false, false⟩⟩) = 0 := by
  have h := c6_hreflang_reciprocal
    ⟨str "de/index.html", str "/de/", some (str "https://e.com/de/"), [], [],
      [(str "en", str "https://e.com/en/")], none, false⟩
    ⟨str "en/index.html", str "/en/", some (str "https://e.com/en/"), [], [],
      [(str "fr", str "https://e.com/fr/")], none, false⟩
    (str "https://e.com/de/") (str "https://e.com/en/") (str "en")
    ⟨⟨TrailingSlash.always, IndexHtml.forbid⟩,
      ⟨false, false, false, false, false, false, false⟩,
      ⟨true, false, false, true⟩, ⟨false, false, false, false⟩⟩
    [] [] false none
    (by decide) (by decide) (by decide) (by decide) (by decide) (by decide) (by decide)
    (by decide) (by decide)
  constructor
  · rw [h.1]
    decide
  · exact h.2

/-- Counterexample to C6 as stated: page A declares
`hreflang="en" href=B` and B declares *no* hreflang pairs at all — the
claim demands exactly one `hreflang/no-reciprocal` finding on A, but the
check emits no finding whatsoever, because a target page with no pairs
is absent from the collected pair map and the reciprocity test is
skipped. -/
theorem c6_hreflang_no_pairs_counterexample :
    hreflang_check_all
        (SiteIndex.build
          [⟨str "de/index.html", str "/de/", some (str "https://e.com/de/"), [], [],
            [(str "en", str "https://e.com/en/")], none, false⟩,
           ⟨str "en/index.html", str "/en/", some (str "https://e.com/en/"), [], [],
            [], none, false⟩]
          [] [] false none)
        ⟨⟨TrailingSlash.always, IndexHtml.forbid⟩,
          ⟨false, false, false, false, false, false, false⟩,
          ⟨true, false, false, true⟩, ⟨false, false, false, false⟩⟩ = [] := by
  decide

/-! ## Sitemap parsing and the sitemap check (claim C8) -/

/-- C8 (amended).  A read error in the sitemap XML stream is never
propagated: the parse loop stops exactly as it does at end-of-file,
returning the `loc` texts collected before the error point.  The
consuming check reports `sitemap/missing` only when the sitemap file
does not exist (and `require` is set); an existing sitemap whose parsed
URL set is empty — as for a sitemap malformed from the start — yields
no sitemap findings at all. -/
theorem c8_malformed_sitemap :
    (∀ (evs tail : List XmlEvent) (b : Bool),
        parseSitemapLoop (evs ++ XmlEvent.err :: tail) b
          = parseSitemapLoop (evs ++ [XmlEvent.eof]) b)
    ∧ (∀ (index : SiteIndex) (config : Config),
        index.sitemap_file_exists = false → config.sitemap.require = true →
        sitemap_check_all index config
          = [⟨Level.error, str "sitemap/missing", str "sitemap.xml", [],
              str "sitemap.xml not found in dist directory",
              str "Configure Astro to generate a sitemap (e.g., @astrojs/sitemap)"⟩])
    ∧ (∀ (index : SiteIndex) (config : Config),
        index.sitemap_file_exists = true → index.sitemap_urls = [] →
        sitemap_check_all index config = []) := by
  refine ⟨?_, ?_, ?_⟩
  · intro evs tail b
    induction evs generalizing b with
    | nil => rfl
    | cons e evs ih =>
      cases e <;> simp only [List.cons_append, parseSitemapLoop] <;>
        first
          | rfl
          | (split <;> simp [ih])
          | simp [ih]
  · intro index config hex hreq
    unfold sitemap_check_all
    rw [if_pos (by rw [hex]; rfl), if_pos hreq]
  · intro index config hex hurls
    unfold sitemap_check_all
    rw [if_neg (by rw [hex]; simp), if_pos hurls]

/-- Witness for C8: the truncation equation evaluated on a concrete
malformed stream, and the two check behaviors on concrete indexes. -/
theorem c8_malformed_sitemap_witness :
    parseSitemapLoop
        [XmlEvent.start (str "loc"), XmlEvent.text (str "https://e.com/a/"),
         XmlEvent.stop (str "loc"), XmlEvent.err] false
      = parseSitemapLoop
        [XmlEvent.start (str "loc"), XmlEvent.text (str "https://e.com/a/"),
         XmlEvent.stop (str "loc"), XmlEvent.eof] false
    ∧ sitemap_check_all
        (SiteIndex.build [⟨str "index.html", str "/", none, [], [], [], none, false⟩]
          [] [] false none)
        ⟨⟨TrailingSlash.always, IndexHtml.forbid⟩,
          ⟨false, false, false, false, false, false, false⟩,
          ⟨false, false, false, false⟩, ⟨true, true, true, true⟩⟩
      = [⟨Level.error, str "sitemap/missing", str "sitemap.xml", [],
          str "sitemap.xml not found in dist directory",
          str "Configure Astro to generate a sitemap (e.g., @astrojs/sitemap)"⟩]
    ∧ sitemap_check_all
        (SiteIndex.build [⟨str "index.html", str "/", none, [], [], [], none, false⟩]
          [] [] true none)
        ⟨⟨TrailingSlash.always, IndexHtml.forbid⟩,
          ⟨false, false, false, false, false, false, false⟩,
          ⟨false, false, false, false⟩, ⟨true, true, true, true⟩⟩ = [] :=
  ⟨c8_malformed_sitemap.1
      [XmlEvent.start (str "loc"), XmlEvent.text (str "https://e.com/a/"),
       XmlEvent.stop (str "loc")] [] false,
   c8_malformed_sitemap.2.1 _ _ (by decide) (by decide),
   c8_malformed_sitemap.2.2 _ _ (by decide) (by decide)⟩

/-- Counterexample to C8 as stated: a sitemap stream with one complete
`<loc>` entry followed by a read error parses to a *nonempty* URL list,
not the empty set; and an existing sitemap file whose parsed URL set is
empty produces *no* finding from the sitemap check even with
`require = true`, not a missing-sitemap finding. -/
theorem c8_malformed_sitemap_counterexample :
    parse_sitemap
        [XmlEvent.start (str "loc"), XmlEvent.text (str "https://e.com/a/"),
         XmlEvent.stop (str "loc"), XmlEvent.err]
      = [str "https://e.com/a/"]
    ∧ parse_sitemap
        [XmlEvent.start (str "loc"), XmlEvent.text (str "https://e.com/a/"),
         XmlEvent.stop (str "loc"), XmlEvent.err] ≠ []
    ∧ sitemap_check_all
        (SiteIndex.build [⟨str "index.html", str "/", none, [], [], [], none, false⟩]
          [] [] true none)
        ⟨⟨TrailingSlash.always, IndexHtml.forbid⟩,
          ⟨false, false, false, false, false, false, false⟩,
          ⟨false, false, false, false⟩, ⟨true, true, true, true⟩⟩ = [] := by
  refine ⟨?_, ?_, ?_⟩ <;> decide

end AstroAudit
